import Mathlib

/-!
Shallow embedding of the MALMI event-detection core
(`eqtprob_eventdetect` in `src/event_detection.py`) and verification of the
specification's claims about it.

Modelling conventions:
* Times and probabilities are rationals (`ℚ`); Python `datetime` arithmetic in
  seconds is exact to the microsecond, and the algorithm only adds, subtracts
  and compares times, so `ℚ` is a faithful carrier.
* The source fixes `data_size_EQT = 6000` and `dt_EQT = 0.01`; the embedding
  keeps them as fields (`dataSize`, `dt`) of the configuration so that the
  algorithm, which is generic in them, can be evaluated on small inputs.
* `N_tit = 1` in the source, so the refine pass runs exactly once per outer
  iteration (the `itit > 0` re-seeding branch is dead code and not modelled).
* Python dictionaries keyed by station name are association lists
  (`List (String × ℚ)`) with `dictGet`/`dictSet`.
* Where the Python code would raise (e.g. a `KeyError` reading `tts_sta[sta]`
  before any segment set it, possible only when `d_thrd ≤ 0`), the embedding
  leaves the state unchanged; all theorems that depend on those paths carry
  the hypothesis `0 < d_thrd` that rules them out.
* The scan's `while` loop is driven by fuel; every claim is proved for an
  arbitrary amount of fuel.
-/

namespace Malmi

/-- Configuration of `eqtprob_eventdetect`: the explicit parameters
`sttd_max`, `twlex`, `d_thrd`, `nsta_thrd`, `spttdf_ssmax`, together with the
internal constants `data_size_EQT` (6000 in the source) and `dt_EQT`
(0.01 s in the source). -/
structure ScanCfg where
  sttd_max : ℚ
  twlex : ℚ
  d_thrd : ℚ
  nsta_thrd : ℕ
  spttdf_ssmax : ℚ
  dataSize : ℕ
  dt : ℚ
deriving DecidableEq, Repr

/-- One probability data segment of one station: its start time
(`dsg_starttime`) and the per-sample rows of the `6000×3` EQT probability
array (detection, P-phase, S-phase). -/
structure Segment where
  starttime : ℚ
  dat : List (ℚ × ℚ × ℚ)
deriving DecidableEq, Repr

/-- Detection-probability sample `i` of a segment (`data_probD[i]`,
column 0 of the array; out-of-range reads give the `np.zeros` fill). -/
def probD (seg : Segment) (i : ℕ) : ℚ := (seg.dat.getD i (0, 0, 0)).1

/-- Segment end time: `dsg_endtime = dsg_starttime + (data_size_EQT-1)*dt_EQT`. -/
def segEnd (cfg : ScanCfg) (seg : Segment) : ℚ :=
  seg.starttime + ((cfg.dataSize - 1 : ℕ) : ℚ) * cfg.dt

/-- Timestamp of sample `i` of a segment (`data_times[i]`). -/
def segTime (cfg : ScanCfg) (seg : Segment) (i : ℕ) : ℚ :=
  seg.starttime + (i : ℚ) * cfg.dt

/-- The whole data base: the sorted station list `stanames` paired with each
station's segment list (`db[sta]`). -/
abbrev StationDB := List (String × List Segment)

/-- Association-list read, modelling a Python dict lookup. -/
def dictGet (k : String) : List (String × ℚ) → Option ℚ
  | [] => none
  | (k', v) :: rest => if k = k' then some v else dictGet k rest

/-- Association-list write, modelling a Python dict assignment. -/
def dictSet (k : String) (v : ℚ) : List (String × ℚ) → List (String × ℚ)
  | [] => [(k, v)]
  | (k', v') :: rest =>
    if k = k' then (k, v) :: rest else (k', v') :: dictSet k v rest

/-- `np.argmax` on a boolean array: index of the first `true`, and `0` when
no entry is `true`. -/
def truePositions (l : List Bool) : List ℕ :=
  (List.range l.length).filter (fun k => l.getD k false)

/-- `np.argmax` of a boolean list (first `true` position, `0` if none). -/
def npArgmaxB (l : List Bool) : ℕ := (truePositions l).headD 0

/-- Python `max` over a list of rationals (the list is nonempty at every
use site, mirroring `max(data_probD[data_pdindex])`). -/
def listMaxD (l : List ℚ) : ℚ := l.foldl max (l.headD 0)

/-- `data_pdindex` (line 177) as an index list: the indices of the samples
of `seg` whose timestamps lie inside the searched time range `[tt1, tt2]`
(`np.flatnonzero` of the boolean mask). -/
def pdIdxOf (cfg : ScanCfg) (seg : Segment) (tt1 tt2 : ℚ) : List ℕ :=
  (List.range cfg.dataSize).filter
    (fun i => decide (tt1 ≤ segTime cfg seg i ∧ segTime cfg seg i ≤ tt2))

/-- `detecid` (line 178): which in-window samples are above threshold. -/
def detecOf (cfg : ScanCfg) (seg : Segment) (tt1 tt2 : ℚ) : List Bool :=
  (pdIdxOf cfg seg tt1 tt2).map (fun i => decide (cfg.d_thrd ≤ probD seg i))

/-- `tts_temp` (lines 192-208): the refined start produced by one segment. -/
def ttsTempOf (cfg : ScanCfg) (seg : Segment) (tt1 tt2 : ℚ) : ℚ :=
  let t := segTime cfg seg
  let p := probD seg
  let idfirst := (pdIdxOf cfg seg tt1 tt2).headD 0
  if cfg.d_thrd ≤ p idfirst ∧ 0 < idfirst ∧ cfg.d_thrd ≤ p (idfirst - 1) then
    let ddinx := (List.range idfirst).filter (fun j => decide (p j < cfg.d_thrd))
    if ddinx ≠ [] then t (ddinx.getLastD 0 + 1) - cfg.twlex
    else t 0 - cfg.spttdf_ssmax
  else if cfg.d_thrd ≤ p idfirst ∧ idfirst = 0 then
    t 0 - cfg.spttdf_ssmax
  else
    t (idfirst + npArgmaxB (detecOf cfg seg tt1 tt2)) - cfg.twlex

/-- `ttd_temp` (lines 241-258): the refined end produced by one segment. -/
def ttdTempOf (cfg : ScanCfg) (seg : Segment) (tt1 tt2 : ℚ) : ℚ :=
  let N := cfg.dataSize
  let t := segTime cfg seg
  let p := probD seg
  let idfirst := (pdIdxOf cfg seg tt1 tt2).headD 0
  let idlast := (pdIdxOf cfg seg tt1 tt2).getLastD 0
  if cfg.d_thrd ≤ p idlast ∧ idlast < N - 1 ∧ cfg.d_thrd ≤ p (idlast + 1) then
    let k := npArgmaxB
      ((List.range' (idlast + 1) (N - (idlast + 1))).map
        (fun j => decide (p j < cfg.d_thrd)))
    if 0 < k then t (idlast + k) + cfg.twlex
    else t (N - 1) + cfg.spttdf_ssmax
  else if cfg.d_thrd ≤ p idlast ∧ idlast = N - 1 then
    t (N - 1) + cfg.spttdf_ssmax
  else
    t (idfirst + (truePositions (detecOf cfg seg tt1 tt2)).getLastD 0) + cfg.twlex

/-- `dprobD_max` (line 211): the maximum detection probability of the
segment inside the searched time range. -/
def dmaxOf (cfg : ScanCfg) (seg : Segment) (tt1 tt2 : ℚ) : ℚ :=
  listMaxD ((pdIdxOf cfg seg tt1 tt2).map (probD seg))

/-- Per-segment boundary refinement: the body of the
`if detecid.any():` block (`event_detection.py` lines 180-284) without the
station/global state updates.  Given the search window `[tt1, tt2]` it
returns `some (tts_temp, ttd_temp, dprobD_max)` when the segment has an
in-window sample with detection probability `≥ d_thrd`, and `none`
otherwise. -/
def refineSeg (cfg : ScanCfg) (seg : Segment) (tt1 tt2 : ℚ) :
    Option (ℚ × ℚ × ℚ) :=
  if (detecOf cfg seg tt1 tt2).any id then
    some (ttsTempOf cfg seg tt1 tt2, ttdTempOf cfg seg tt1 tt2,
          dmaxOf cfg seg tt1 tt2)
  else none

/-- Mutable state of one refine pass: the running window end `tt2`, the
running extraction bounds `tts`/`ttd` (`None` until a station triggers), the
per-station dictionaries `tts_sta`/`ttd_sta`, and the trigger count
`nsta_trig`. -/
structure RefState where
  tt2 : ℚ
  tts : Option ℚ
  ttd : Option ℚ
  ttsSta : List (String × ℚ)
  ttdSta : List (String × ℚ)
  nstaTrig : ℕ
deriving DecidableEq, Repr

/-- `if x < lo: x = lo` — the clamp of lines 218-219 and 227-228. -/
def clampLow (x lo : ℚ) : ℚ := if x < lo then lo else x

/-- `if x > hi: x = hi` — the clamp of lines 268-269 and 276-277. -/
def clampHigh (x hi : ℚ) : ℚ := if hi < x then hi else x

/-- `tts = min(tts, tts_sta[sta])` with `tts` possibly `None`
(lines 222-225). -/
def ttsMerge (old : Option ℚ) (v : ℚ) : ℚ :=
  match old with
  | none => v
  | some t0 => min t0 v

/-- `ttd = max(ttd, ttd_sta[sta])` with `ttd` possibly `None`
(lines 272-275). -/
def ttdMerge (old : Option ℚ) (w : ℚ) : ℚ :=
  match old with
  | none => w
  | some u0 => max u0 w

/-- Processing of one covering data segment of station `sta`
(`event_detection.py` lines 169-287): the accumulator carries the pass
state together with the per-station `station_triggered` flag and
`prob_det_max`. On the (unreachable for `0 < d_thrd`) paths where Python
would raise a `KeyError`, the remaining updates of the segment are
skipped. -/
def segStep (cfg : ScanCfg) (tdp M tt1 : ℚ) (sta : String)
    (acc : RefState × Bool × ℚ) (seg : Segment) : RefState × Bool × ℚ :=
  let st := acc.1
  let trig := acc.2.1
  let pmax := acc.2.2
  match refineSeg cfg seg tt1 st.tt2 with
  | none => acc
  | some (a, b, dmax) =>
    -- lines 184-186: count the station once
    let nsta' := if trig then st.nstaTrig else st.nstaTrig + 1
    -- condition of lines 212 and 261: dprobD_max > prob_det_max
    let cond := pmax < dmax
    -- line 212-213
    let tsd1 := if cond then dictSet sta a st.ttsSta else st.ttsSta
    match dictGet sta tsd1 with
    | none => ({ st with nstaTrig := nsta' }, true, pmax)
    | some v0 =>
      -- lines 218-219: clamp tts_sta[sta] to ttd_previous
      let tsd2 := if v0 < tdp then dictSet sta tdp tsd1 else tsd1
      -- lines 222-228: update tts from the clamped tts_sta[sta], re-clamp
      let tts2 := clampLow (ttsMerge st.tts (clampLow v0 tdp)) tdp
      -- lines 231-236
      let tt2b := min (if tt1 < tts2 then tts2 + (cfg.sttd_max + cfg.twlex)
                       else tt1 + (cfg.sttd_max + cfg.twlex)) M
      -- lines 261-263
      let tdd1 := if cond then dictSet sta b st.ttdSta else st.ttdSta
      match dictGet sta tdd1 with
      | none =>
        ({ st with nstaTrig := nsta', ttsSta := tsd2, tts := some tts2,
                   tt2 := tt2b }, true, pmax)
      | some w0 =>
        -- lines 268-269: clamp ttd_sta[sta] to dsg_sttmax
        let tdd2 := if M < w0 then dictSet sta M tdd1 else tdd1
        -- lines 272-277: update ttd from the clamped ttd_sta[sta], re-clamp
        let ttd2 := clampHigh (ttdMerge st.ttd (clampHigh w0 M)) M
        -- lines 280-282
        let tt2d := min (max tt2b ttd2) M
        let pmax' := if cond then dmax else pmax
        (⟨tt2d, some tts2, some ttd2, tsd2, tdd2, nsta'⟩, true, pmax')

/-- Processing of one station inside a refine pass
(`event_detection.py` lines 157-289): select the segments covering the
current `[tt1, tt2]` (with `tt2` as it stands when the station is reached,
line 167) and fold `segStep` over them.  Returns the updated pass state and
the station's final `station_triggered` flag. -/
def stationPass (cfg : ScanCfg) (tdp M tt1 : ℚ) (st : RefState)
    (stn : String × List Segment) : RefState × Bool :=
  let cov := stn.2.filter
    (fun sg => decide (sg.starttime ≤ tt1 ∧ st.tt2 ≤ segEnd cfg sg))
  let r := cov.foldl (segStep cfg tdp M tt1 stn.1) (st, false, 0)
  (r.1, r.2.1)

/-- The initial state of a refine pass (lines 150-155). -/
def initState (tt2 : ℚ) : RefState := ⟨tt2, none, none, [], [], 0⟩

/-- One full refine pass over all stations (the `for sta in stanames` loop;
with `N_tit = 1` it runs exactly once per outer iteration). -/
def refinePass (cfg : ScanCfg) (tdp M tt1 tt2seed : ℚ) (db : StationDB) :
    RefState :=
  db.foldl (fun st stn => (stationPass cfg tdp M tt1 st stn).1)
    (initState tt2seed)

/-- A finalized event: the extraction range `[tts, ttd]`, the per-station
refined bounds, and the trigger count of its iteration. -/
structure EventR where
  tts : ℚ
  ttd : ℚ
  ttsSta : List (String × ℚ)
  ttdSta : List (String × ℚ)
  nstaTrig : ℕ
deriving DecidableEq, Repr

/-- One outer scan iteration (`event_detection.py` lines 133-372): seed
`tt2` (lines 139-142), run the refine pass, decide whether to finalize an
event (line 297), and compute the next cursor (lines 366-370: `ttd + dt` if
`ttd` was set — by any triggered station, finalized or not — else
`tt2 + dt`) and the next `ttd_previous` (line 364).  Returns
`(finalized event?, next tt1, next ttd_previous)`. -/
def scanIter (cfg : ScanCfg) (db : StationDB) (M tt1 tdp : ℚ) :
    Option EventR × ℚ × ℚ :=
  let tt2 := min (tt1 + (cfg.sttd_max + cfg.twlex)) M
  let st := refinePass cfg tdp M tt1 tt2 db
  let cursor := match st.ttd with
    | some b => b + cfg.dt
    | none => st.tt2 + cfg.dt
  if cfg.nsta_thrd ≤ st.nstaTrig then
    match st.tts, st.ttd with
    | some a, some b =>
      (some ⟨a, b, st.ttsSta, st.ttdSta, st.nstaTrig⟩, cursor, b)
    | _, _ => (none, cursor, tdp)
  else (none, cursor, tdp)

/-- The fuelled scan loop (`while tt1 <= dsg_sttmax`), returning the list of
finalized events in emission order. -/
def scanLoop (cfg : ScanCfg) (db : StationDB) (M : ℚ) :
    ℕ → ℚ → ℚ → List EventR
  | 0, _, _ => []
  | fuel + 1, tt1, tdp =>
    if tt1 ≤ M then
      match scanIter cfg db M tt1 tdp with
      | (some ev, c, tdp') => ev :: scanLoop cfg db M fuel c tdp'
      | (none, c, tdp') => scanLoop cfg db M fuel c tdp'
    else []

/-- Python `min` over list of rationals, `none` on the empty list (where the
source would raise). -/
def listMinQ (l : List ℚ) : Option ℚ :=
  l.foldl (fun acc x => match acc with
    | none => some x
    | some m => some (min m x)) none

/-- Python `max` over list of rationals, `none` on the empty list. -/
def listMaxQ (l : List ℚ) : Option ℚ :=
  l.foldl (fun acc x => match acc with
    | none => some x
    | some m => some (max m x)) none

/-- The refine pass together with the list of station names whose
`station_triggered` flag ended `True`, in processing order.  The state
component coincides with `refinePass`; the name list makes the coincidence
count inspectable. -/
def passWithTrigs (cfg : ScanCfg) (tdp M tt1 tt2seed : ℚ) (db : StationDB) :
    RefState × List String :=
  db.foldl (fun acc stn =>
      ((stationPass cfg tdp M tt1 acc.1 stn).1,
       if (stationPass cfg tdp M tt1 acc.1 stn).2 then acc.2 ++ [stn.1]
       else acc.2))
    (initState tt2seed, [])

/-- The stations counted as triggered in one refine pass. -/
def triggeredStations (cfg : ScanCfg) (tdp M tt1 tt2seed : ℚ)
    (db : StationDB) : List String :=
  (passWithTrigs cfg tdp M tt1 tt2seed db).2

/-- One output trace handed to `vector2trace`: station, channel code,
start time of the extracted sub-series, and the sub-series itself. -/
structure Trace where
  station : String
  channel : String
  starttime : ℚ
  dat : List ℚ
deriving DecidableEq, Repr

/-- Helper for `np.argmin(abs(·))`: index of the first entry of minimal
absolute value. -/
def argminAbsAux : List ℚ → ℕ → ℕ → ℚ → ℕ
  | [], _, bi, _ => bi
  | x :: xs, i, bi, bv =>
    if |x| < bv then argminAbsAux xs (i + 1) i |x|
    else argminAbsAux xs (i + 1) bi bv

/-- `np.argmin(abs(l))`: first index of minimal absolute value (`0` on the
empty list, where numpy would raise). -/
def argminAbs : List ℚ → ℕ
  | [] => 0
  | x :: xs => argminAbsAux xs 1 0 |x|

/-- `tt_mid` (lines 310-317): the station's own refined midpoint when it
triggered, else the event midpoint. -/
def ttMidOf (sta : String) (tts ttd : ℚ)
    (ttsSta ttdSta : List (String × ℚ)) : ℚ :=
  match dictGet sta ttsSta, dictGet sta ttdSta with
  | some a, some b => a + (b - a) / 2
  | _, _ => tts + (ttd - tts) / 2

/-- `dindx` of the output phase (line 319): segments covering the whole
extraction range. -/
def covOf (cfg : ScanCfg) (tts ttd : ℚ) (segs : List Segment) :
    List Segment :=
  segs.filter (fun sg => decide (sg.starttime ≤ tts ∧ ttd ≤ segEnd cfg sg))

/-- The chosen output segment (lines 322-324): the covering segment whose
midpoint is closest to `tt_mid` (`np.argmin(abs(mdtimesdf))`, first-seen on
ties). -/
def chosenOf (cfg : ScanCfg) (tts ttd : ℚ)
    (ttsSta ttdSta : List (String × ℚ)) (stn : String × List Segment) :
    Segment :=
  (covOf cfg tts ttd stn.2).getD
    (argminAbs ((covOf cfg tts ttd stn.2).map
      (fun sg => sg.starttime + (((cfg.dataSize - 1 : ℕ) : ℚ) * cfg.dt) / 2 -
        ttMidOf stn.1 tts ttd ttsSta ttdSta)))
    ⟨0, []⟩

/-- Per-station event output (`event_detection.py` lines 307-358): choose
the midpoint time for the station (its own refined window if it triggered,
line 311-317), select among the segments covering `[tts, ttd]` the one whose
midpoint is closest to it (lines 319-324), and emit the detection, P-phase
and S-phase probability series extracted with the same sample mask
(lines 328-354).  Returns `some []` when no segment covers the event
(line 320), skipping the station, and `none` when the chosen segment has no
sample time inside `[tts, ttd]`: there `odata_time[0]` (line 333) raises
`IndexError` and the program aborts with nothing emitted. -/
def emitStation (cfg : ScanCfg) (tts ttd : ℚ)
    (ttsSta ttdSta : List (String × ℚ)) (stn : String × List Segment) :
    Option (List Trace) :=
  if covOf cfg tts ttd stn.2 = [] then some []
  else
    let chosen := chosenOf cfg tts ttd ttsSta ttdSta stn
    match pdIdxOf cfg chosen tts ttd with
    | [] => none
    | i0 :: rest =>
      let pdIdx := i0 :: rest
      let ot0 := segTime cfg chosen i0
      some
        [⟨stn.1, "PBD", ot0, pdIdx.map (fun i => (chosen.dat.getD i (0, 0, 0)).1)⟩,
         ⟨stn.1, "PBP", ot0, pdIdx.map (fun i => (chosen.dat.getD i (0, 0, 0)).2.1)⟩,
         ⟨stn.1, "PBS", ot0, pdIdx.map (fun i => (chosen.dat.getD i (0, 0, 0)).2.2)⟩]

/-- Data output of a finalized event: every station is visited (line 307),
non-covering stations are skipped inside `emitStation`; an `IndexError` in
any station's output (empty sample mask, line 333) aborts the whole run, so
the event's output is `none`. -/
def emitEvent (cfg : ScanCfg) (db : StationDB) (ev : EventR) :
    Option (List Trace) :=
  (db.mapM (emitStation cfg ev.tts ev.ttd ev.ttsSta ev.ttdSta)).map
    List.flatten

/-- The station-loading loop (`event_detection.py` lines 87-121), with the
filesystem as explicit input: each station folder is paired with `some`
parsed segment list, or with `none` when its
`prediction_probabilities.hdf5` is missing or malformed (where
`h5py.File(pbfile, 'r')`, line 96, raises).  The loop contains no exception
handling, so the first failing station aborts the whole load with that
station's error; otherwise all stations are kept. -/
def loadStations : List (String × Option (List Segment)) →
    Except String StationDB
  | [] => .ok []
  | (nm, none) :: _ => .error nm
  | (nm, some segs) :: rest =>
    (loadStations rest).map (fun d => (nm, segs) :: d)

/-- The whole detection run: compute the global time bounds
`dsg_sttmin`/`dsg_sttmax` from the loaded data base (lines 101-109) and scan
from the earliest start (lines 131-133, with `ttd_previous` initialized to
`dsg_sttmin`).  `none` models the crash on an empty data base or a station
with zero segments (`min` of an empty sequence). -/
def eqtprob_eventdetect (cfg : ScanCfg) (db : StationDB) (fuel : ℕ) :
    Option (List EventR) :=
  if db.isEmpty ∨ db.any (fun s => s.2.isEmpty) then none
  else
    let starts := (db.map (fun s => s.2.map (·.starttime))).flatten
    let ends := (db.map (fun s => s.2.map (segEnd cfg))).flatten
    match listMinQ starts, listMaxQ ends with
    | some m, some M => some (scanLoop cfg db M fuel m m)
    | _, _ => none

/-- Reachable-state invariant of one refine pass, relative to the iteration
parameters `ttd_previous = tdp`, `dsg_sttmax = M` and the window start
`tt1`: the window end stays in `[tt1, M]`; `tts` and `ttd` are set together,
before the first trigger the per-station dictionaries are empty and their
key sets always agree; `tts` is clamped to at least `ttd_previous` and never
exceeds `ttd`; and `ttd` lies in `[tt1, M]` and never exceeds the running
window end. -/
def InvP (tdp M tt1 : ℚ) (st : RefState) : Prop :=
  tt1 ≤ st.tt2 ∧ st.tt2 ≤ M ∧
  (st.tts.isSome ↔ st.ttd.isSome) ∧
  (st.tts = none → st.ttsSta = [] ∧ st.ttdSta = []) ∧
  (∀ k, (dictGet k st.ttsSta).isSome ↔ (dictGet k st.ttdSta).isSome) ∧
  (∀ x, st.tts = some x → tdp ≤ x ∧ ∀ y, st.ttd = some y → x ≤ y) ∧
  (∀ y, st.ttd = some y → tt1 ≤ y ∧ y ≤ M ∧ y ≤ st.tt2)

/-! ### General list lemmas -/

theorem dictGet_dictSet (k : String) (v : ℚ) :
    ∀ l, dictGet k (dictSet k v l) = some v := by
  intro l
  induction l with
  | nil => simp [dictGet, dictSet]
  | cons hd tl ih =>
    obtain ⟨k', v'⟩ := hd
    by_cases h : k = k'
    · simp [dictSet, dictGet, h]
    · simp only [dictSet, dictGet, if_neg h, ih]

theorem filter_range_lb (s : ℕ) :
    ∀ N, (List.range N).filter (fun i => decide (s ≤ i)) =
      List.range' s (N - s) := by
  intro N
  induction N with
  | zero => simp
  | succ n ih =>
    rw [List.range_succ, List.filter_append, ih]
    by_cases h : s ≤ n
    · rw [List.filter_cons_of_pos (by simpa using h), List.filter_nil]
      have h2 : n + 1 - s = (n - s) + 1 := by omega
      have h3 : s + 1 * (n - s) = n := by omega
      rw [h2, List.range'_concat, h3]
    · rw [List.filter_cons_of_neg (by simpa using h), List.filter_nil,
        List.append_nil]
      have h2 : n + 1 - s = n - s := by omega
      rw [h2]

theorem filter_range_interval (lo hi : ℕ) :
    ∀ N, hi < N →
      (List.range N).filter (fun i => decide (lo ≤ i ∧ i ≤ hi)) =
        List.range' lo (hi + 1 - lo) := by
  intro N
  induction N with
  | zero => omega
  | succ n ih =>
    intro hN
    rcases Nat.lt_succ_iff_lt_or_eq.mp hN with h | h
    · rw [List.range_succ, List.filter_append, ih h,
        List.filter_cons_of_neg (by simp; omega), List.filter_nil,
        List.append_nil]
    · subst h
      have hc : ∀ x ∈ List.range (hi + 1),
          (decide (lo ≤ x ∧ x ≤ hi) : Bool) = decide (lo ≤ x) := by
        intro x hx
        rw [List.mem_range] at hx
        rw [decide_eq_decide]
        exact ⟨fun h2 => h2.1, fun h2 => ⟨h2, by omega⟩⟩
      rw [List.filter_congr hc, filter_range_lb]

theorem filter_range_convex (P : ℕ → Prop) [DecidablePred P] :
    ∀ N, (∀ i j k, i ≤ j → j ≤ k → k < N → P i → P k → P j) →
      ∃ s L, (List.range N).filter (fun i => decide (P i)) =
        List.range' s L ∧ s + L ≤ N := by
  intro N
  induction N with
  | zero => exact fun _ => ⟨0, 0, by simp, by omega⟩
  | succ n ih =>
    intro hconv
    obtain ⟨s, L, hfil, hsl⟩ :=
      ih (fun i j k hij hjk hk hi hkk => hconv i j k hij hjk (by omega) hi hkk)
    by_cases hPn : P n
    · rw [List.range_succ, List.filter_append, hfil,
        List.filter_cons_of_pos (by simpa using hPn), List.filter_nil]
      rcases Nat.eq_zero_or_pos L with hL | hL
      · subst hL
        exact ⟨n, 1, by simp, by omega⟩
      · have hmem : ∀ x, x ∈ List.range' s L ↔ x < n ∧ P x := by
          intro x
          rw [← hfil, List.mem_filter, List.mem_range, decide_eq_true_eq]
        have hend : P (s + L - 1) :=
          ((hmem (s + L - 1)).mp (by rw [List.mem_range'_1]; omega)).2
        have hn : s + L = n := by
          by_contra hne
          have hlt : s + L < n := by
            have := ((hmem (s + L - 1)).mp
              (by rw [List.mem_range'_1]; omega)).1
            omega
          have hP : P (s + L) :=
            hconv (s + L - 1) (s + L) n (by omega) (by omega) (by omega)
              hend hPn
          have : s + L ∈ List.range' s L := (hmem (s + L)).mpr ⟨hlt, hP⟩
          rw [List.mem_range'_1] at this
          omega
        refine ⟨s, L + 1, ?_, by omega⟩
        rw [List.range'_concat]
        have : s + 1 * L = n := by omega
        rw [this]
    · rw [List.range_succ, List.filter_append, hfil,
        List.filter_cons_of_neg (by simpa using hPn), List.filter_nil,
        List.append_nil]
      exact ⟨s, L, rfl, by omega⟩

theorem headD_range' (s L d : ℕ) (hL : 0 < L) :
    (List.range' s L).headD d = s := by
  cases L with
  | zero => omega
  | succ m => rw [List.range'_succ]; rfl

theorem getLastD_range' (s L d : ℕ) (hL : 0 < L) :
    (List.range' s L).getLastD d = s + L - 1 := by
  cases L with
  | zero => omega
  | succ m =>
    rw [List.range'_concat, List.getLastD_concat]
    omega

theorem getD_map_range' {α : Type} (f : ℕ → α) (s L k : ℕ) (d : α)
    (h : k < L) : ((List.range' s L).map f).getD k d = f (s + k) := by
  rw [List.getD_eq_getElem?_getD,
    List.getElem?_eq_getElem (by simpa using h), List.getElem_map,
    List.getElem_range']
  simp

theorem foldl_max_le_init (l : List ℚ) : ∀ a : ℚ, a ≤ l.foldl max a := by
  induction l with
  | nil => simp
  | cons y ys ih => exact fun a => le_trans (le_max_left a y) (ih (max a y))

theorem le_foldl_max {x : ℚ} {l : List ℚ} (hx : x ∈ l) :
    ∀ a, x ≤ l.foldl max a := by
  induction l with
  | nil => simp at hx
  | cons y ys ih =>
    intro a
    rcases List.mem_cons.mp hx with h | h
    · subst h
      exact le_trans (le_max_right a x) (foldl_max_le_init ys _)
    · exact ih h _

theorem le_listMaxD {x : ℚ} {l : List ℚ} (hx : x ∈ l) : x ≤ listMaxD l :=
  le_foldl_max hx _

theorem mem_truePositions {l : List Bool} {k : ℕ} :
    k ∈ truePositions l ↔ k < l.length ∧ l.getD k false = true := by
  unfold truePositions
  rw [List.mem_filter, List.mem_range]

theorem truePositions_ne_nil {l : List Bool} (h : l.any id = true) :
    truePositions l ≠ [] := by
  rw [List.any_eq_true] at h
  obtain ⟨x, hx, hid⟩ := h
  obtain ⟨k, hk, hget⟩ := List.getElem_of_mem hx
  intro hnil
  have hkm : k ∈ truePositions l := by
    refine mem_truePositions.mpr ⟨hk, ?_⟩
    rw [List.getD_eq_getElem?_getD, List.getElem?_eq_getElem hk, hget]
    simpa using hid
  rw [hnil] at hkm
  simp at hkm

theorem headD_mem {α : Type} {l : List α} (h : l ≠ []) (d : α) :
    l.headD d ∈ l := by
  cases l with
  | nil => exact absurd rfl h
  | cons a t => simp [List.headD]

theorem getLastD_mem {α : Type} {l : List α} (h : l ≠ []) (d : α) :
    l.getLastD d ∈ l := by
  rw [List.getLastD_eq_getLast?, List.getLast?_eq_getLast l h]
  simp [List.getLast_mem h]

theorem headD_le_getLastD_of_pairwise {l : List ℕ}
    (hp : l.Pairwise (· < ·)) (h : l ≠ []) : l.headD 0 ≤ l.getLastD 0 := by
  cases l with
  | nil => exact absurd rfl h
  | cons a t =>
    have hmem : (a :: t).getLastD 0 ∈ a :: t :=
      getLastD_mem (List.cons_ne_nil a t) 0
    rcases List.mem_cons.mp hmem with h2 | h2
    · rw [List.headD_cons, h2]
    · exact le_of_lt ((List.pairwise_cons.mp hp).1 _ h2)

/-! ### Facts about per-segment refinement -/

theorem segTime_mono {cfg : ScanCfg} {seg : Segment} (hdt : 0 ≤ cfg.dt)
    {i j : ℕ} (hij : i ≤ j) : segTime cfg seg i ≤ segTime cfg seg j := by
  unfold segTime
  have hc : (i : ℚ) ≤ (j : ℚ) := by exact_mod_cast hij
  exact add_le_add_left (mul_le_mul_of_nonneg_right hc hdt) _

theorem mem_pdIdxOf {cfg : ScanCfg} {seg : Segment} {tt1 tt2 : ℚ} {i : ℕ} :
    i ∈ pdIdxOf cfg seg tt1 tt2 ↔
      i < cfg.dataSize ∧ tt1 ≤ segTime cfg seg i ∧ segTime cfg seg i ≤ tt2 := by
  unfold pdIdxOf
  rw [List.mem_filter, List.mem_range, decide_eq_true_eq]

theorem detec_any_iff {cfg : ScanCfg} {seg : Segment} {tt1 tt2 : ℚ} :
    (detecOf cfg seg tt1 tt2).any id = true ↔
      ∃ i ∈ pdIdxOf cfg seg tt1 tt2, cfg.d_thrd ≤ probD seg i := by
  unfold detecOf
  rw [List.any_eq_true]
  constructor
  · rintro ⟨bl, hb, hid⟩
    rw [List.mem_map] at hb
    obtain ⟨i, hi, rfl⟩ := hb
    exact ⟨i, hi, by simpa using hid⟩
  · rintro ⟨i, hi, h⟩
    exact ⟨decide (cfg.d_thrd ≤ probD seg i), List.mem_map_of_mem _ hi,
      by simpa using h⟩

theorem refineSeg_eq_none {cfg : ScanCfg} {seg : Segment} {tt1 tt2 : ℚ}
    (h : ¬ (detecOf cfg seg tt1 tt2).any id = true) :
    refineSeg cfg seg tt1 tt2 = none := by
  unfold refineSeg
  rw [if_neg h]

theorem refineSeg_eq_some {cfg : ScanCfg} {seg : Segment} {tt1 tt2 : ℚ}
    (h : (detecOf cfg seg tt1 tt2).any id = true) :
    refineSeg cfg seg tt1 tt2 =
      some (ttsTempOf cfg seg tt1 tt2, ttdTempOf cfg seg tt1 tt2,
            dmaxOf cfg seg tt1 tt2) := by
  unfold refineSeg
  rw [if_pos h]

theorem pdIdxOf_contig (cfg : ScanCfg) (seg : Segment) (tt1 tt2 : ℚ)
    (hdt : 0 ≤ cfg.dt) :
    ∃ s L, pdIdxOf cfg seg tt1 tt2 = List.range' s L ∧
      s + L ≤ cfg.dataSize := by
  unfold pdIdxOf
  exact filter_range_convex
    (fun i => tt1 ≤ segTime cfg seg i ∧ segTime cfg seg i ≤ tt2)
    cfg.dataSize
    (fun i j k hij hjk _ hi hk =>
      ⟨le_trans hi.1 (segTime_mono hdt hij),
       le_trans (segTime_mono hdt hjk) hk.2⟩)

/-- Core inequalities of one segment refinement: whenever a segment
triggers, its raw refined start does not exceed `tt2`, its raw refined end
is at least `tt1`, start does not exceed end, and the reported maximum
probability is at least the threshold.  Needs only the sign conventions
`twlex, spttdf_ssmax, dt ≥ 0`. -/
theorem refineSeg_bounds {cfg : ScanCfg} {seg : Segment} {tt1 tt2 a b m : ℚ}
    (htw : 0 ≤ cfg.twlex) (hsp : 0 ≤ cfg.spttdf_ssmax) (hdt : 0 ≤ cfg.dt)
    (hres : refineSeg cfg seg tt1 tt2 = some (a, b, m)) :
    a ≤ b ∧ tt1 ≤ b ∧ a ≤ tt2 ∧ cfg.d_thrd ≤ m := by
  by_cases hany : (detecOf cfg seg tt1 tt2).any id = true
  case neg => rw [refineSeg_eq_none hany] at hres; exact absurd hres (by simp)
  rw [refineSeg_eq_some hany, Option.some.injEq, Prod.mk.injEq,
    Prod.mk.injEq] at hres
  obtain ⟨ha, hb, hm⟩ := hres
  obtain ⟨s, L, hcontig, hsL⟩ := pdIdxOf_contig cfg seg tt1 tt2 hdt
  obtain ⟨i0, hi0pd, hi0thr⟩ := detec_any_iff.mp hany
  have hLpos : 0 < L := by
    rcases Nat.eq_zero_or_pos L with h0 | h
    · rw [h0] at hcontig
      rw [hcontig] at hi0pd
      simp at hi0pd
    · exact h
  have hwin : ∀ k, k < L →
      tt1 ≤ segTime cfg seg (s + k) ∧ segTime cfg seg (s + k) ≤ tt2 := by
    intro k hk
    have hmem : s + k ∈ pdIdxOf cfg seg tt1 tt2 := by
      rw [hcontig, List.mem_range'_1]
      omega
    have := mem_pdIdxOf.mp hmem
    exact ⟨this.2.1, this.2.2⟩
  have hif : (pdIdxOf cfg seg tt1 tt2).headD 0 = s := by
    rw [hcontig]
    exact headD_range' s L 0 hLpos
  have hil : (pdIdxOf cfg seg tt1 tt2).getLastD 0 = s + L - 1 := by
    rw [hcontig]
    exact getLastD_range' s L 0 hLpos
  have hdc : detecOf cfg seg tt1 tt2 =
      (List.range' s L).map (fun i => decide (cfg.d_thrd ≤ probD seg i)) := by
    unfold detecOf
    rw [hcontig]
  have hdclen : (detecOf cfg seg tt1 tt2).length = L := by
    rw [hdc, List.length_map, List.length_range']
  have htpne : truePositions (detecOf cfg seg tt1 tt2) ≠ [] :=
    truePositions_ne_nil hany
  have hkf : (truePositions (detecOf cfg seg tt1 tt2)).headD 0 ∈
      truePositions (detecOf cfg seg tt1 tt2) := headD_mem htpne 0
  have hkl : (truePositions (detecOf cfg seg tt1 tt2)).getLastD 0 ∈
      truePositions (detecOf cfg seg tt1 tt2) := getLastD_mem htpne 0
  set kf := (truePositions (detecOf cfg seg tt1 tt2)).headD 0 with hkfdef
  set kl := (truePositions (detecOf cfg seg tt1 tt2)).getLastD 0 with hkldef
  have hkfL : kf < L := by
    have := (mem_truePositions.mp hkf).1
    rwa [hdclen] at this
  have hklL : kl < L := by
    have := (mem_truePositions.mp hkl).1
    rwa [hdclen] at this
  have hkfthr : cfg.d_thrd ≤ probD seg (s + kf) := by
    have := (mem_truePositions.mp hkf).2
    rw [hdc, getD_map_range' _ s L kf false hkfL] at this
    exact of_decide_eq_true this
  have hkfkl : kf ≤ kl := by
    refine headD_le_getLastD_of_pairwise ?_ htpne
    exact List.Pairwise.sublist (List.filter_sublist _)
      (List.pairwise_lt_range _)
  have hmono := fun {i j : ℕ} (h : i ≤ j) => @segTime_mono cfg seg hdt i j h
  -- bound on the refined start
  have hta : ttsTempOf cfg seg tt1 tt2 ≤ segTime cfg seg (s + kf) := by
    unfold ttsTempOf
    rw [hif]
    dsimp only
    split_ifs with h1 h2 h3
    · have hddne := h2
      have hdd : ((List.range s).filter
          (fun j => decide (probD seg j < cfg.d_thrd))).getLastD 0 + 1 ≤ s := by
        have hmem := getLastD_mem hddne 0
        have := (List.mem_filter.mp hmem).1
        rw [List.mem_range] at this
        omega
      have := hmono (le_trans hdd (Nat.le_add_right s kf))
      linarith
    · have := hmono (Nat.zero_le (s + kf))
      linarith
    · have := hmono (Nat.zero_le (s + kf))
      linarith
    · have : npArgmaxB (detecOf cfg seg tt1 tt2) = kf := rfl
      rw [this]
      linarith
  -- bound on the refined end
  have htb : segTime cfg seg (s + kl) ≤ ttdTempOf cfg seg tt1 tt2 := by
    unfold ttdTempOf
    rw [hif, hil]
    dsimp only
    split_ifs with h1 h2 h3
    · have := hmono (show s + kl ≤ s + L - 1 + npArgmaxB
          ((List.range' (s + L - 1 + 1) (cfg.dataSize - (s + L - 1 + 1))).map
            (fun j => decide (probD seg j < cfg.d_thrd))) by omega)
      linarith
    · have := hmono (show s + kl ≤ cfg.dataSize - 1 by omega)
      linarith
    · have := hmono (show s + kl ≤ cfg.dataSize - 1 by omega)
      linarith
    · linarith
  have hmax : cfg.d_thrd ≤ dmaxOf cfg seg tt1 tt2 := by
    refine le_trans hkfthr (le_listMaxD ?_)
    refine List.mem_map_of_mem _ ?_
    rw [hcontig, List.mem_range'_1]
    omega
  have hkfw := hwin kf hkfL
  have hklw := hwin kl hklL
  have hffl : segTime cfg seg (s + kf) ≤ segTime cfg seg (s + kl) :=
    hmono (by omega)
  subst ha hb hm
  exact ⟨le_trans hta (le_trans hffl htb), le_trans hklw.1 htb,
    le_trans hta hkfw.2, hmax⟩

/-! ### Structural facts about `segStep` and the pass folds -/

/-- One `segStep` either leaves the accumulator untouched (no in-window
detection) or marks the station triggered, incrementing `nsta_trig` exactly
when the station was not yet triggered. -/
theorem segStep_cases (cfg : ScanCfg) (tdp M tt1 : ℚ) (sta : String)
    (acc : RefState × Bool × ℚ) (seg : Segment) :
    segStep cfg tdp M tt1 sta acc seg = acc ∨
    ((segStep cfg tdp M tt1 sta acc seg).2.1 = true ∧
     (segStep cfg tdp M tt1 sta acc seg).1.nstaTrig =
       (if acc.2.1 then acc.1.nstaTrig else acc.1.nstaTrig + 1)) := by
  obtain ⟨st, trig, pmax⟩ := acc
  unfold segStep
  dsimp only
  split
  · exact Or.inl rfl
  · next a b dmax heq =>
    split
    · exact Or.inr ⟨rfl, rfl⟩
    · next v0 heq2 =>
      split
      · exact Or.inr ⟨rfl, rfl⟩
      · exact Or.inr ⟨rfl, rfl⟩

/-- `segStep` preserves the `station_triggered` flag and, once the station
is triggered, never changes the trigger count again. -/
theorem segStep_trig_true {cfg : ScanCfg} {tdp M tt1 : ℚ} {sta : String}
    {acc : RefState × Bool × ℚ} {seg : Segment} (h : acc.2.1 = true) :
    (segStep cfg tdp M tt1 sta acc seg).2.1 = true ∧
    (segStep cfg tdp M tt1 sta acc seg).1.nstaTrig = acc.1.nstaTrig := by
  rcases segStep_cases cfg tdp M tt1 sta acc seg with heq | ⟨ht, hn⟩
  · rw [heq]
    exact ⟨h, rfl⟩
  · rw [hn, if_pos h]
    exact ⟨ht, rfl⟩

theorem foldl_segStep_trig_true {cfg : ScanCfg} {tdp M tt1 : ℚ}
    {sta : String} (segs : List Segment) :
    ∀ acc : RefState × Bool × ℚ, acc.2.1 = true →
      (segs.foldl (segStep cfg tdp M tt1 sta) acc).2.1 = true ∧
      (segs.foldl (segStep cfg tdp M tt1 sta) acc).1.nstaTrig =
        acc.1.nstaTrig := by
  induction segs with
  | nil => exact fun acc h => ⟨h, rfl⟩
  | cons sg rest ih =>
    intro acc h
    obtain ⟨h1, h2⟩ := @segStep_trig_true cfg tdp M tt1 sta acc sg h
    obtain ⟨h3, h4⟩ := ih _ h1
    exact ⟨h3, by rw [List.foldl_cons] at *; omega⟩

/-- If the station's segment fold never triggers, the pass state is
untouched. -/
theorem foldl_segStep_untrig {cfg : ScanCfg} {tdp M tt1 : ℚ}
    {sta : String} (segs : List Segment) :
    ∀ st : RefState, ∀ pm : ℚ,
      (segs.foldl (segStep cfg tdp M tt1 sta) (st, false, pm)).2.1 = false →
      segs.foldl (segStep cfg tdp M tt1 sta) (st, false, pm) =
        (st, false, pm) := by
  induction segs with
  | nil => exact fun st pm _ => rfl
  | cons sg rest ih =>
    intro st pm hf
    rw [List.foldl_cons] at hf ⊢
    rcases segStep_cases cfg tdp M tt1 sta (st, false, pm) sg with heq | ⟨ht, _⟩
    · rw [heq] at hf ⊢
      exact ih st pm hf
    · obtain ⟨h1, _⟩ := foldl_segStep_trig_true rest _ ht
      rw [hf] at h1
      exact absurd h1 (by simp)

/-- Trigger-count accounting for one station: starting untriggered, the
fold adds exactly one to `nsta_trig` when the station's flag ends `True`
and nothing otherwise. -/
theorem foldl_segStep_count {cfg : ScanCfg} {tdp M tt1 : ℚ}
    {sta : String} (segs : List Segment) :
    ∀ st : RefState, ∀ pm : ℚ,
      (segs.foldl (segStep cfg tdp M tt1 sta) (st, false, pm)).1.nstaTrig =
        st.nstaTrig +
        (if (segs.foldl (segStep cfg tdp M tt1 sta) (st, false, pm)).2.1
         then 1 else 0) := by
  induction segs with
  | nil => simp
  | cons sg rest ih =>
    intro st pm
    rw [List.foldl_cons]
    rcases segStep_cases cfg tdp M tt1 sta (st, false, pm) sg with heq | ⟨ht, hn⟩
    · rw [heq]
      exact ih st pm
    · obtain ⟨h1, h2⟩ := foldl_segStep_trig_true rest _ ht
      rw [h1, if_pos rfl, h2, hn]
      simp

/-- The per-station result of `stationPass`: the new trigger count is the
old one plus one exactly when the station triggered. -/
theorem stationPass_count (cfg : ScanCfg) (tdp M tt1 : ℚ) (st : RefState)
    (stn : String × List Segment) :
    (stationPass cfg tdp M tt1 st stn).1.nstaTrig =
      st.nstaTrig + (if (stationPass cfg tdp M tt1 st stn).2 then 1 else 0) := by
  unfold stationPass
  exact foldl_segStep_count _ st 0

/-- `segStep` never un-sets `tts`/`ttd`. -/
theorem segStep_preserves_some {cfg : ScanCfg} {tdp M tt1 : ℚ}
    {sta : String} {acc : RefState × Bool × ℚ} {seg : Segment} :
    ((segStep cfg tdp M tt1 sta acc seg).1.tts.isSome = true →
       (segStep cfg tdp M tt1 sta acc seg).1.tts.isSome = true) ∧
    (acc.1.tts.isSome = true →
      (segStep cfg tdp M tt1 sta acc seg).1.tts.isSome = true) ∧
    (acc.1.ttd.isSome = true →
      (segStep cfg tdp M tt1 sta acc seg).1.ttd.isSome = true) := by
  refine ⟨fun h => h, ?_, ?_⟩ <;>
  · obtain ⟨st, trig, pmax⟩ := acc
    unfold segStep
    dsimp only
    split
    · exact fun h => h
    · next a b dmax heq =>
      split
      · exact fun h => h
      · next v0 heq2 =>
        split
        · next heq3 =>
          intro h
          first
          | exact h
          | simp
        · next w0 heq3 =>
          intro h
          first
          | exact h
          | simp

theorem foldl_segStep_preserves_some {cfg : ScanCfg} {tdp M tt1 : ℚ}
    {sta : String} (segs : List Segment) :
    ∀ acc : RefState × Bool × ℚ,
      (acc.1.tts.isSome = true →
        (segs.foldl (segStep cfg tdp M tt1 sta) acc).1.tts.isSome = true) ∧
      (acc.1.ttd.isSome = true →
        (segs.foldl (segStep cfg tdp M tt1 sta) acc).1.ttd.isSome = true) := by
  induction segs with
  | nil => exact fun acc => ⟨fun h => h, fun h => h⟩
  | cons sg rest ih =>
    intro acc
    rw [List.foldl_cons]
    obtain ⟨-, hs, hd⟩ := @segStep_preserves_some cfg tdp M tt1 sta acc sg
    exact ⟨fun h => (ih _).1 (hs h), fun h => (ih _).2 (hd h)⟩

theorem dictGet_dictSet_ne {k k' : String} (h : k ≠ k') (v : ℚ) :
    ∀ l, dictGet k (dictSet k' v l) = dictGet k l := by
  intro l
  induction l with
  | nil => simp [dictGet, dictSet, h]
  | cons hd tl ih =>
    obtain ⟨k2, v2⟩ := hd
    by_cases h2 : k' = k2
    · subst h2
      simp only [dictSet, if_pos rfl, dictGet, if_neg h]
    · simp only [dictSet, if_neg h2, dictGet, ih]

theorem refineSeg_dmax {cfg : ScanCfg} {seg : Segment} {tt1 tt2 a b m : ℚ}
    (hres : refineSeg cfg seg tt1 tt2 = some (a, b, m)) : cfg.d_thrd ≤ m := by
  by_cases hany : (detecOf cfg seg tt1 tt2).any id = true
  case neg => rw [refineSeg_eq_none hany] at hres; exact absurd hres (by simp)
  rw [refineSeg_eq_some hany, Option.some.injEq, Prod.mk.injEq,
    Prod.mk.injEq] at hres
  obtain ⟨-, -, hm⟩ := hres
  obtain ⟨i, hi, hthr⟩ := detec_any_iff.mp hany
  subst hm
  exact le_trans hthr (le_listMaxD (List.mem_map_of_mem _ hi))

/-- Explicit form of `segStep` when the segment does not trigger. -/
theorem segStep_none_eq {cfg : ScanCfg} {tdp M tt1 : ℚ} {sta : String}
    {st : RefState} {trig : Bool} {pmax : ℚ} {seg : Segment}
    (hres : refineSeg cfg seg tt1 st.tt2 = none) :
    segStep cfg tdp M tt1 sta (st, trig, pmax) seg = (st, trig, pmax) := by
  unfold segStep
  dsimp only
  rw [hres]

/-- Explicit form of `segStep` on the path where Python would raise a
`KeyError` reading `tts_sta[sta]` (line 218). -/
theorem segStep_crash1_eq {cfg : ScanCfg} {tdp M tt1 : ℚ} {sta : String}
    {st : RefState} {trig : Bool} {pmax a b dmax : ℚ} {seg : Segment}
    (hres : refineSeg cfg seg tt1 st.tt2 = some (a, b, dmax))
    (hget1 : dictGet sta
      (if pmax < dmax then dictSet sta a st.ttsSta else st.ttsSta) = none) :
    segStep cfg tdp M tt1 sta (st, trig, pmax) seg =
      ({ st with nstaTrig := if trig then st.nstaTrig else st.nstaTrig + 1 },
       true, pmax) := by
  unfold segStep
  dsimp only
  rw [hres]
  dsimp only
  rw [hget1]

/-- Explicit form of `segStep` on the path where Python would raise a
`KeyError` reading `ttd_sta[sta]` (line 268). -/
theorem segStep_crash2_eq {cfg : ScanCfg} {tdp M tt1 : ℚ} {sta : String}
    {st : RefState} {trig : Bool} {pmax a b dmax v0 : ℚ} {seg : Segment}
    (hres : refineSeg cfg seg tt1 st.tt2 = some (a, b, dmax))
    (hget1 : dictGet sta
      (if pmax < dmax then dictSet sta a st.ttsSta else st.ttsSta) = some v0)
    (hget2 : dictGet sta
      (if pmax < dmax then dictSet sta b st.ttdSta else st.ttdSta) = none) :
    segStep cfg tdp M tt1 sta (st, trig, pmax) seg =
      ({ st with
          nstaTrig := if trig then st.nstaTrig else st.nstaTrig + 1,
          ttsSta := if v0 < tdp
            then dictSet sta tdp
              (if pmax < dmax then dictSet sta a st.ttsSta else st.ttsSta)
            else (if pmax < dmax then dictSet sta a st.ttsSta else st.ttsSta),
          tts := some (clampLow (ttsMerge st.tts (clampLow v0 tdp)) tdp),
          tt2 := min
            (if tt1 < clampLow (ttsMerge st.tts (clampLow v0 tdp)) tdp
             then clampLow (ttsMerge st.tts (clampLow v0 tdp)) tdp +
               (cfg.sttd_max + cfg.twlex)
             else tt1 + (cfg.sttd_max + cfg.twlex)) M },
       true, pmax) := by
  unfold segStep
  dsimp only
  rw [hres]
  dsimp only
  rw [hget1]
  dsimp only
  rw [hget2]

/-- Explicit form of `segStep` on the complete (non-raising) triggering
path. -/
theorem segStep_full_eq {cfg : ScanCfg} {tdp M tt1 : ℚ} {sta : String}
    {st : RefState} {trig : Bool} {pmax a b dmax v0 w0 : ℚ} {seg : Segment}
    (hres : refineSeg cfg seg tt1 st.tt2 = some (a, b, dmax))
    (hget1 : dictGet sta
      (if pmax < dmax then dictSet sta a st.ttsSta else st.ttsSta) = some v0)
    (hget2 : dictGet sta
      (if pmax < dmax then dictSet sta b st.ttdSta else st.ttdSta) = some w0) :
    segStep cfg tdp M tt1 sta (st, trig, pmax) seg =
      (⟨min (max
            (min (if tt1 < clampLow (ttsMerge st.tts (clampLow v0 tdp)) tdp
                  then clampLow (ttsMerge st.tts (clampLow v0 tdp)) tdp +
                    (cfg.sttd_max + cfg.twlex)
                  else tt1 + (cfg.sttd_max + cfg.twlex)) M)
            (clampHigh (ttdMerge st.ttd (clampHigh w0 M)) M)) M,
        some (clampLow (ttsMerge st.tts (clampLow v0 tdp)) tdp),
        some (clampHigh (ttdMerge st.ttd (clampHigh w0 M)) M),
        (if v0 < tdp
         then dictSet sta tdp
           (if pmax < dmax then dictSet sta a st.ttsSta else st.ttsSta)
         else (if pmax < dmax then dictSet sta a st.ttsSta else st.ttsSta)),
        (if M < w0
         then dictSet sta M
           (if pmax < dmax then dictSet sta b st.ttdSta else st.ttdSta)
         else (if pmax < dmax then dictSet sta b st.ttdSta else st.ttdSta)),
        if trig then st.nstaTrig else st.nstaTrig + 1⟩,
       true, if pmax < dmax then dmax else pmax) := by
  unfold segStep
  dsimp only
  rw [hres]
  dsimp only
  rw [hget1]
  dsimp only
  rw [hget2]

theorem clampLow_eq_max (x lo : ℚ) : clampLow x lo = max x lo := by
  unfold clampLow
  split_ifs with h
  · exact (max_eq_right (le_of_lt h)).symm
  · exact (max_eq_left (le_of_not_lt h)).symm

theorem clampHigh_eq_min (x hi : ℚ) : clampHigh x hi = min x hi := by
  unfold clampHigh
  split_ifs with h
  · exact (min_eq_right (le_of_lt h)).symm
  · exact (min_eq_left (le_of_not_lt h)).symm

theorem dictGet_isSome_set_or (k : String) (v : ℚ) {l : List (String × ℚ)}
    (c : Prop) [Decidable c] (h : (dictGet k l).isSome = true) :
    (dictGet k (if c then dictSet k v l else l)).isSome = true := by
  split_ifs with hc
  · rw [dictGet_dictSet]
    rfl
  · exact h

/-- `segStep` preserves the reachable-state invariant. -/
theorem segStep_invP {cfg : ScanCfg} {tdp M tt1 : ℚ} {sta : String}
    {acc : RefState × Bool × ℚ} {seg : Segment}
    (htw : 0 ≤ cfg.twlex) (hsp : 0 ≤ cfg.spttdf_ssmax) (hdt : 0 ≤ cfg.dt)
    (hsm : 0 ≤ cfg.sttd_max) (htdp : tdp ≤ tt1) (htM : tt1 ≤ M)
    (hinv : InvP tdp M tt1 acc.1) :
    InvP tdp M tt1 (segStep cfg tdp M tt1 sta acc seg).1 := by
  obtain ⟨st, trig, pmax⟩ := acc
  obtain ⟨h1, h2, h3, h4, h5, h6, h7⟩ := hinv
  dsimp only at h1 h2 h3 h4 h5 h6 h7
  cases hres : refineSeg cfg seg tt1 st.tt2 with
  | none =>
    rw [segStep_none_eq hres]
    exact ⟨h1, h2, h3, h4, h5, h6, h7⟩
  | some r =>
    obtain ⟨a, b, dmax⟩ := r
    obtain ⟨hab, h1b, ha2, hthm⟩ := refineSeg_bounds htw hsp hdt hres
    cases hget1 : dictGet sta
        (if pmax < dmax then dictSet sta a st.ttsSta else st.ttsSta) with
    | none =>
      rw [segStep_crash1_eq hres hget1]
      exact ⟨h1, h2, h3, h4, h5, h6, h7⟩
    | some v0 =>
      cases hget2 : dictGet sta
          (if pmax < dmax then dictSet sta b st.ttdSta else st.ttdSta) with
      | none =>
        exfalso
        by_cases hcond : pmax < dmax
        · rw [if_pos hcond, dictGet_dictSet] at hget2
          cases hget2
        · rw [if_neg hcond] at hget1 hget2
          have hks := (h5 sta).mp (by rw [hget1]; rfl)
          rw [hget2] at hks
          simp at hks
      | some w0 =>
        rw [segStep_full_eq hres hget1 hget2]
        have htts2tdp : tdp ≤ clampLow (ttsMerge st.tts (clampLow v0 tdp)) tdp := by
          rw [clampLow_eq_max]
          exact le_max_right _ _
        have httd2M : clampHigh (ttdMerge st.ttd (clampHigh w0 M)) M ≤ M := by
          rw [clampHigh_eq_min]
          exact min_le_right _ _
        have hkey : clampLow (ttsMerge st.tts (clampLow v0 tdp)) tdp ≤
              clampHigh (ttdMerge st.ttd (clampHigh w0 M)) M ∧
            tt1 ≤ clampHigh (ttdMerge st.ttd (clampHigh w0 M)) M := by
          cases hsttts : st.tts with
          | some t0 =>
            cases hstttd : st.ttd with
            | none =>
              have hc := h3.mp (by rw [hsttts]; rfl)
              rw [hstttd] at hc
              simp at hc
            | some u0 =>
              obtain ⟨ht0tdp, ht0le⟩ := h6 t0 hsttts
              obtain ⟨hu0t1, hu0M, hu0t2⟩ := h7 u0 hstttd
              have ht0u0 : t0 ≤ u0 := ht0le u0 hstttd
              have hu0le : u0 ≤ clampHigh (ttdMerge (some u0) (clampHigh w0 M)) M := by
                rw [clampHigh_eq_min]
                simp only [ttdMerge]
                exact le_min (le_max_left _ _) hu0M
              constructor
              · rw [clampLow_eq_max]
                simp only [ttsMerge]
                apply max_le
                · exact le_trans (le_trans (min_le_left _ _) ht0u0) hu0le
                · exact le_trans (le_trans htdp hu0t1) hu0le
              · exact le_trans hu0t1 hu0le
          | none =>
            have hstd : st.ttd = none := by
              cases hstttd : st.ttd with
              | none => rfl
              | some u0 =>
                have hc := h3.mpr (by rw [hstttd]; rfl)
                rw [hsttts] at hc
                simp at hc
            obtain ⟨hde1, hde2⟩ := h4 hsttts
            have hcond : pmax < dmax := by
              by_contra hc
              rw [if_neg hc, hde1] at hget1
              simp [dictGet] at hget1
            rw [if_pos hcond, dictGet_dictSet, Option.some.injEq] at hget1 hget2
            subst hget1
            subst hget2
            rw [hstd]
            simp only [ttsMerge, ttdMerge]
            rw [clampLow_eq_max, clampLow_eq_max, clampHigh_eq_min,
              clampHigh_eq_min]
            constructor
            · apply max_le
              · apply max_le
                · exact le_min (le_min hab (le_trans ha2 h2))
                    (le_trans ha2 h2)
                · exact le_min (le_min (le_trans htdp h1b) (le_trans htdp htM))
                    (le_trans htdp htM)
              · exact le_min (le_min (le_trans htdp h1b) (le_trans htdp htM))
                  (le_trans htdp htM)
            · exact le_min (le_min h1b htM) htM
        have hkeys : ∀ k,
            (dictGet k (if v0 < tdp
              then dictSet sta tdp
                (if pmax < dmax then dictSet sta a st.ttsSta else st.ttsSta)
              else (if pmax < dmax then dictSet sta a st.ttsSta
                    else st.ttsSta))).isSome = true ↔
            (dictGet k (if M < w0
              then dictSet sta M
                (if pmax < dmax then dictSet sta b st.ttdSta else st.ttdSta)
              else (if pmax < dmax then dictSet sta b st.ttdSta
                    else st.ttdSta))).isSome = true := by
          intro k
          by_cases hk : k = sta
          · subst hk
            have hL := dictGet_isSome_set_or k tdp (v0 < tdp)
              (by rw [hget1]; rfl)
            have hR := dictGet_isSome_set_or k M (M < w0)
              (by rw [hget2]; rfl)
            exact ⟨fun _ => hR, fun _ => hL⟩
          · have e1 : dictGet k (if v0 < tdp
                then dictSet sta tdp
                  (if pmax < dmax then dictSet sta a st.ttsSta else st.ttsSta)
                else (if pmax < dmax then dictSet sta a st.ttsSta
                      else st.ttsSta)) = dictGet k st.ttsSta := by
              split_ifs with hc1 hc2 hc3 <;>
                simp only [dictGet_dictSet_ne hk]
            have e2 : dictGet k (if M < w0
                then dictSet sta M
                  (if pmax < dmax then dictSet sta b st.ttdSta else st.ttdSta)
                else (if pmax < dmax then dictSet sta b st.ttdSta
                      else st.ttdSta)) = dictGet k st.ttdSta := by
              split_ifs with hc1 hc2 hc3 <;>
                simp only [dictGet_dictSet_ne hk]
            rw [e1, e2]
            exact h5 k
        have htt2b1 : tt1 ≤ min
            (if tt1 < clampLow (ttsMerge st.tts (clampLow v0 tdp)) tdp
             then clampLow (ttsMerge st.tts (clampLow v0 tdp)) tdp +
               (cfg.sttd_max + cfg.twlex)
             else tt1 + (cfg.sttd_max + cfg.twlex)) M := by
          apply le_min ?_ htM
          split_ifs with h
          · linarith
          · linarith
        refine ⟨?_, ?_, ?_, ?_, ?_, ?_, ?_⟩
        · exact le_min (le_trans htt2b1 (le_max_left _ _)) htM
        · exact min_le_right _ _
        · simp
        · intro hx
          cases hx
        · exact hkeys
        · intro x hx
          rw [Option.some.injEq] at hx
          subst hx
          refine ⟨htts2tdp, ?_⟩
          intro y hy
          rw [Option.some.injEq] at hy
          subst hy
          exact hkey.1
        · intro y hy
          rw [Option.some.injEq] at hy
          subst hy
          exact ⟨hkey.2, httd2M, le_min (le_max_right _ _) httd2M⟩

theorem foldl_segStep_invP {cfg : ScanCfg} {tdp M tt1 : ℚ} {sta : String}
    (htw : 0 ≤ cfg.twlex) (hsp : 0 ≤ cfg.spttdf_ssmax) (hdt : 0 ≤ cfg.dt)
    (hsm : 0 ≤ cfg.sttd_max) (htdp : tdp ≤ tt1) (htM : tt1 ≤ M)
    (segs : List Segment) :
    ∀ acc : RefState × Bool × ℚ, InvP tdp M tt1 acc.1 →
      InvP tdp M tt1 ((segs.foldl (segStep cfg tdp M tt1 sta) acc).1) := by
  induction segs with
  | nil => exact fun acc h => h
  | cons sg rest ih =>
    intro acc h
    rw [List.foldl_cons]
    exact ih _ (segStep_invP htw hsp hdt hsm htdp htM h)

theorem stationPass_invP {cfg : ScanCfg} {tdp M tt1 : ℚ}
    (htw : 0 ≤ cfg.twlex) (hsp : 0 ≤ cfg.spttdf_ssmax) (hdt : 0 ≤ cfg.dt)
    (hsm : 0 ≤ cfg.sttd_max) (htdp : tdp ≤ tt1) (htM : tt1 ≤ M)
    (st : RefState) (stn : String × List Segment) (h : InvP tdp M tt1 st) :
    InvP tdp M tt1 (stationPass cfg tdp M tt1 st stn).1 := by
  unfold stationPass
  exact foldl_segStep_invP htw hsp hdt hsm htdp htM _ (st, false, 0) h

/-- The reachable-state invariant holds at the end of every refine pass
whose seed window end lies in `[tt1, M]`. -/
theorem refinePass_invP {cfg : ScanCfg} {tdp M tt1 tt2seed : ℚ}
    (htw : 0 ≤ cfg.twlex) (hsp : 0 ≤ cfg.spttdf_ssmax) (hdt : 0 ≤ cfg.dt)
    (hsm : 0 ≤ cfg.sttd_max) (htdp : tdp ≤ tt1) (htM : tt1 ≤ M)
    (hs1 : tt1 ≤ tt2seed) (hs2 : tt2seed ≤ M) (db : StationDB) :
    InvP tdp M tt1 (refinePass cfg tdp M tt1 tt2seed db) := by
  unfold refinePass
  have h0 : InvP tdp M tt1 (initState tt2seed) := by
    refine ⟨hs1, hs2, Iff.rfl, fun _ => ⟨rfl, rfl⟩, fun _ => Iff.rfl, ?_, ?_⟩
    · intro x hx
      simp [initState] at hx
    · intro y hy
      simp [initState] at hy
  revert h0
  generalize initState tt2seed = st0
  revert st0
  induction db with
  | nil => exact fun st0 h => h
  | cons stn rest ih =>
    intro st0 h
    rw [List.foldl_cons]
    exact ih _ (stationPass_invP htw hsp hdt hsm htdp htM st0 stn h)

/-- The first triggering segment of a station always sets `tts` and `ttd`
(its `dprobD_max` beats the initial `prob_det_max = 0` whenever
`0 < d_thrd`). -/
theorem segStep_fresh {cfg : ScanCfg} {tdp M tt1 : ℚ} {sta : String}
    {st : RefState} {sg : Segment} {a b dmax : ℚ} (hthr : 0 < cfg.d_thrd)
    (hres : refineSeg cfg sg tt1 st.tt2 = some (a, b, dmax)) :
    (segStep cfg tdp M tt1 sta (st, false, 0) sg).1.tts.isSome = true ∧
    (segStep cfg tdp M tt1 sta (st, false, 0) sg).1.ttd.isSome = true := by
  have hcond : (0 : ℚ) < dmax := lt_of_lt_of_le hthr (refineSeg_dmax hres)
  have hget1 : dictGet sta
      (if (0 : ℚ) < dmax then dictSet sta a st.ttsSta else st.ttsSta) =
      some a := by
    rw [if_pos hcond, dictGet_dictSet]
  have hget2 : dictGet sta
      (if (0 : ℚ) < dmax then dictSet sta b st.ttdSta else st.ttdSta) =
      some b := by
    rw [if_pos hcond, dictGet_dictSet]
  rw [segStep_full_eq hres hget1 hget2]
  exact ⟨rfl, rfl⟩

theorem foldl_segStep_trigsome {cfg : ScanCfg} {tdp M tt1 : ℚ}
    {sta : String} (hthr : 0 < cfg.d_thrd) (segs : List Segment) :
    ∀ st : RefState,
      (segs.foldl (segStep cfg tdp M tt1 sta) (st, false, 0)).2.1 = true →
      (segs.foldl (segStep cfg tdp M tt1 sta) (st, false, 0)).1.tts.isSome = true ∧
      (segs.foldl (segStep cfg tdp M tt1 sta) (st, false, 0)).1.ttd.isSome = true := by
  induction segs with
  | nil =>
    intro st h
    simp at h
  | cons sg rest ih =>
    intro st htrig
    rw [List.foldl_cons] at htrig ⊢
    cases hres : refineSeg cfg sg tt1 st.tt2 with
    | none =>
      rw [segStep_none_eq hres] at htrig ⊢
      exact ih st htrig
    | some r =>
      obtain ⟨a, b, dmax⟩ := r
      obtain ⟨hs, hd⟩ := @segStep_fresh cfg tdp M tt1 sta st sg a b dmax hthr hres
      have hp := @foldl_segStep_preserves_some cfg tdp M tt1 sta rest
        (segStep cfg tdp M tt1 sta (st, false, 0) sg)
      exact ⟨hp.1 hs, hp.2 hd⟩

theorem stationPass_some {cfg : ScanCfg} {tdp M tt1 : ℚ}
    (hthr : 0 < cfg.d_thrd) (st : RefState) (stn : String × List Segment)
    (h : (stationPass cfg tdp M tt1 st stn).2 = true) :
    (stationPass cfg tdp M tt1 st stn).1.tts.isSome = true ∧
    (stationPass cfg tdp M tt1 st stn).1.ttd.isSome = true := by
  unfold stationPass at h ⊢
  exact foldl_segStep_trigsome hthr _ st h

theorem stationPass_untrig {cfg : ScanCfg} {tdp M tt1 : ℚ}
    (st : RefState) (stn : String × List Segment)
    (h : (stationPass cfg tdp M tt1 st stn).2 = false) :
    (stationPass cfg tdp M tt1 st stn).1 = st := by
  unfold stationPass at h ⊢
  dsimp only at h ⊢
  rw [foldl_segStep_untrig _ st 0 h]

/-- A pass in which at least one station has been counted has both `tts`
and `ttd` set (requires `0 < d_thrd`). -/
theorem refinePass_nsta_some {cfg : ScanCfg} {tdp M tt1 seed : ℚ}
    {db : StationDB} (hthr : 0 < cfg.d_thrd)
    (hn : 1 ≤ (refinePass cfg tdp M tt1 seed db).nstaTrig) :
    (refinePass cfg tdp M tt1 seed db).tts.isSome = true ∧
    (refinePass cfg tdp M tt1 seed db).ttd.isSome = true := by
  unfold refinePass at hn ⊢
  revert hn
  have h0 : 1 ≤ (initState seed).nstaTrig →
      (initState seed).tts.isSome = true ∧
      (initState seed).ttd.isSome = true := by
    intro h1
    simp [initState] at h1
  revert h0
  generalize initState seed = st0
  revert st0
  induction db with
  | nil => exact fun st0 h => h
  | cons stn rest ih =>
    intro st0 h
    rw [List.foldl_cons]
    apply ih
    intro hn
    cases htr : (stationPass cfg tdp M tt1 st0 stn).2 with
    | true => exact stationPass_some hthr st0 stn htr
    | false =>
      rw [stationPass_untrig st0 stn htr] at hn ⊢
      exact h hn

/-- Whenever `ttd` is set at the end of a pass, at least one station was
counted as triggered. -/
theorem refinePass_ttd_nsta {cfg : ScanCfg} {tdp M tt1 seed : ℚ}
    {db : StationDB}
    (hd : (refinePass cfg tdp M tt1 seed db).ttd.isSome = true) :
    1 ≤ (refinePass cfg tdp M tt1 seed db).nstaTrig := by
  unfold refinePass at hd ⊢
  revert hd
  have h0 : (initState seed).ttd.isSome = true →
      1 ≤ (initState seed).nstaTrig := by
    intro h1
    simp [initState] at h1
  revert h0
  generalize initState seed = st0
  revert st0
  induction db with
  | nil => exact fun st0 h => h
  | cons stn rest ih =>
    intro st0 h
    rw [List.foldl_cons]
    apply ih
    intro hd
    cases htr : (stationPass cfg tdp M tt1 st0 stn).2 with
    | false =>
      rw [stationPass_untrig st0 stn htr] at hd ⊢
      exact h hd
    | true =>
      have hc := stationPass_count cfg tdp M tt1 st0 stn
      rw [htr, if_pos rfl] at hc
      omega

theorem passWithTrigs_fst (cfg : ScanCfg) (tdp M tt1 seed : ℚ)
    (db : StationDB) :
    (passWithTrigs cfg tdp M tt1 seed db).1 =
      refinePass cfg tdp M tt1 seed db := by
  unfold passWithTrigs refinePass
  suffices h : ∀ (db : StationDB) (st : RefState) (ns : List String),
      (db.foldl (fun acc stn =>
        ((stationPass cfg tdp M tt1 acc.1 stn).1,
         if (stationPass cfg tdp M tt1 acc.1 stn).2 then acc.2 ++ [stn.1]
         else acc.2)) (st, ns)).1 =
      db.foldl (fun st stn => (stationPass cfg tdp M tt1 st stn).1) st by
    exact h db _ []
  intro db
  induction db with
  | nil => intros; rfl
  | cons stn rest ih =>
    intro st ns
    rw [List.foldl_cons, List.foldl_cons]
    exact ih _ _

/-- The trigger count of a pass equals the number of stations collected as
triggered. -/
theorem refinePass_count (cfg : ScanCfg) (tdp M tt1 seed : ℚ)
    (db : StationDB) :
    (refinePass cfg tdp M tt1 seed db).nstaTrig =
      (triggeredStations cfg tdp M tt1 seed db).length := by
  rw [← passWithTrigs_fst]
  unfold triggeredStations passWithTrigs
  suffices h : ∀ (db : StationDB) (st : RefState) (ns : List String),
      (db.foldl (fun acc stn =>
        ((stationPass cfg tdp M tt1 acc.1 stn).1,
         if (stationPass cfg tdp M tt1 acc.1 stn).2 then acc.2 ++ [stn.1]
         else acc.2)) (st, ns)).1.nstaTrig + ns.length =
      st.nstaTrig +
      (db.foldl (fun acc stn =>
        ((stationPass cfg tdp M tt1 acc.1 stn).1,
         if (stationPass cfg tdp M tt1 acc.1 stn).2 then acc.2 ++ [stn.1]
         else acc.2)) (st, ns)).2.length by
    have hh := h db (initState seed) []
    simp only [initState, List.length_nil, Nat.add_zero] at hh ⊢
    omega
  intro db
  induction db with
  | nil => intros; simp
  | cons stn rest ih =>
    intro st ns
    rw [List.foldl_cons]
    dsimp only
    have hcnt := stationPass_count cfg tdp M tt1 st stn
    cases htr : (stationPass cfg tdp M tt1 st stn).2 with
    | true =>
      rw [htr] at hcnt
      simp only [reduceIte] at hcnt ⊢
      have hih := ih (stationPass cfg tdp M tt1 st stn).1 (ns ++ [stn.1])
      rw [List.length_append] at hih
      simp only [List.length_cons, List.length_nil] at hih
      omega
    | false =>
      rw [htr] at hcnt
      simp only [Bool.false_eq_true, if_false] at hcnt ⊢
      have hih := ih (stationPass cfg tdp M tt1 st stn).1 ns
      omega

/-- The collected triggered stations form a sublist of the station list. -/
theorem triggeredStations_sublist (cfg : ScanCfg) (tdp M tt1 seed : ℚ)
    (db : StationDB) :
    (triggeredStations cfg tdp M tt1 seed db).Sublist (db.map Prod.fst) := by
  unfold triggeredStations passWithTrigs
  suffices h : ∀ (db : StationDB) (st : RefState) (ns : List String),
      ∃ e, (db.foldl (fun acc stn =>
        ((stationPass cfg tdp M tt1 acc.1 stn).1,
         if (stationPass cfg tdp M tt1 acc.1 stn).2 then acc.2 ++ [stn.1]
         else acc.2)) (st, ns)).2 =
        ns ++ e ∧ e.Sublist (db.map Prod.fst) by
    obtain ⟨e, he1, he2⟩ := h db (initState seed) []
    rw [he1, List.nil_append]
    exact he2
  intro db
  induction db with
  | nil => exact fun st ns => ⟨[], by simp, by simp⟩
  | cons stn rest ih =>
    intro st ns
    rw [List.foldl_cons]
    dsimp only
    cases htr : (stationPass cfg tdp M tt1 st stn).2 with
    | true =>
      obtain ⟨e, he1, he2⟩ := ih (stationPass cfg tdp M tt1 st stn).1
        (ns ++ [stn.1])
      refine ⟨stn.1 :: e, ?_, ?_⟩
      · simp only [reduceIte]
        rw [he1, List.append_assoc]
        rfl
      · exact List.Sublist.cons₂ _ he2
    | false =>
      obtain ⟨e, he1, he2⟩ := ih (stationPass cfg tdp M tt1 st stn).1 ns
      refine ⟨e, ?_, List.Sublist.cons _ he2⟩
      simp only [Bool.false_eq_true, if_false]
      exact he1

/-- The clamp of lines 218-228 makes every value ever stored in `tts` at
least `ttd_previous`, unconditionally. -/
theorem segStep_tts_ge {cfg : ScanCfg} {tdp M tt1 : ℚ} {sta : String}
    {acc : RefState × Bool × ℚ} {seg : Segment}
    (h : ∀ x, acc.1.tts = some x → tdp ≤ x) :
    ∀ x, (segStep cfg tdp M tt1 sta acc seg).1.tts = some x → tdp ≤ x := by
  obtain ⟨st, trig, pmax⟩ := acc
  cases hres : refineSeg cfg seg tt1 st.tt2 with
  | none =>
    rw [segStep_none_eq hres]
    exact h
  | some r =>
    obtain ⟨a, b, dmax⟩ := r
    cases hget1 : dictGet sta
        (if pmax < dmax then dictSet sta a st.ttsSta else st.ttsSta) with
    | none =>
      rw [segStep_crash1_eq hres hget1]
      exact h
    | some v0 =>
      cases hget2 : dictGet sta
          (if pmax < dmax then dictSet sta b st.ttdSta else st.ttdSta) with
      | none =>
        rw [segStep_crash2_eq hres hget1 hget2]
        intro x hx
        rw [Option.some.injEq] at hx
        subst hx
        rw [clampLow_eq_max]
        exact le_max_right _ _
      | some w0 =>
        rw [segStep_full_eq hres hget1 hget2]
        intro x hx
        rw [Option.some.injEq] at hx
        subst hx
        rw [clampLow_eq_max]
        exact le_max_right _ _

theorem foldl_segStep_tts_ge {cfg : ScanCfg} {tdp M tt1 : ℚ} {sta : String}
    (segs : List Segment) :
    ∀ acc : RefState × Bool × ℚ, (∀ x, acc.1.tts = some x → tdp ≤ x) →
      ∀ x, ((segs.foldl (segStep cfg tdp M tt1 sta) acc).1.tts = some x →
        tdp ≤ x) := by
  induction segs with
  | nil => exact fun acc h => h
  | cons sg rest ih =>
    intro acc h
    rw [List.foldl_cons]
    exact ih _ (segStep_tts_ge h)

/-- Every `tts` ever reported by a refine pass is at least `ttd_previous`,
with no side conditions. -/
theorem refinePass_tts_ge {cfg : ScanCfg} {tdp M tt1 seed : ℚ}
    {db : StationDB} :
    ∀ x, (refinePass cfg tdp M tt1 seed db).tts = some x → tdp ≤ x := by
  unfold refinePass
  have h0 : ∀ x, (initState seed).tts = some x → tdp ≤ x := by
    intro x hx
    simp [initState] at hx
  revert h0
  generalize initState seed = st0
  revert st0
  induction db with
  | nil => exact fun st0 h => h
  | cons stn rest ih =>
    intro st0 h
    rw [List.foldl_cons]
    apply ih
    unfold stationPass
    exact foldl_segStep_tts_ge _ (st0, false, 0) h

/-- Cursor/`ttd_previous` bookkeeping of one iteration, with no side
conditions: an emitted event has `tts ≥ ttd_previous` and becomes the new
`ttd_previous`; an iteration that emits nothing keeps `ttd_previous`. -/
theorem scanIter_tdp {cfg : ScanCfg} {db : StationDB} {M tt1 tdp : ℚ} :
    (∀ ev, (scanIter cfg db M tt1 tdp).1 = some ev →
       tdp ≤ ev.tts ∧ (scanIter cfg db M tt1 tdp).2.2 = ev.ttd) ∧
    ((scanIter cfg db M tt1 tdp).1 = none →
       (scanIter cfg db M tt1 tdp).2.2 = tdp) := by
  have hts := @refinePass_tts_ge cfg tdp M tt1 (min (tt1 + (cfg.sttd_max + cfg.twlex)) M) db
  unfold scanIter
  dsimp only
  split_ifs with hg
  · cases htts : (refinePass cfg tdp M tt1
        (min (tt1 + (cfg.sttd_max + cfg.twlex)) M) db).tts with
    | none =>
      cases httd : (refinePass cfg tdp M tt1
          (min (tt1 + (cfg.sttd_max + cfg.twlex)) M) db).ttd with
      | none => exact ⟨fun ev h => (nomatch h), fun _ => rfl⟩
      | some b => exact ⟨fun ev h => (nomatch h), fun _ => rfl⟩
    | some a =>
      cases httd : (refinePass cfg tdp M tt1
          (min (tt1 + (cfg.sttd_max + cfg.twlex)) M) db).ttd with
      | none => exact ⟨fun ev h => (nomatch h), fun _ => rfl⟩
      | some b =>
        refine ⟨?_, ?_⟩
        · intro ev hev
          rw [Option.some.injEq] at hev
          subst hev
          exact ⟨hts a htts, rfl⟩
        · intro hnone
          exact absurd hnone (by simp)
  · exact ⟨fun ev h => (nomatch h), fun _ => rfl⟩

/-- Chain structure of the emitted event list: the first event starts no
earlier than the incoming `ttd_previous`, and consecutive events do not
overlap. -/
theorem scanLoop_chain (cfg : ScanCfg) (db : StationDB) (M : ℚ) :
    ∀ (fuel : ℕ) (tt1 tdp : ℚ),
      List.Chain' (fun e e' : EventR => e.ttd ≤ e'.tts)
        (scanLoop cfg db M fuel tt1 tdp) ∧
      (∀ e, (scanLoop cfg db M fuel tt1 tdp).head? = some e → tdp ≤ e.tts) := by
  intro fuel
  induction fuel with
  | zero =>
    intro tt1 tdp
    constructor
    · simp [scanLoop]
    · intro e he
      simp [scanLoop] at he
  | succ n ih =>
    intro tt1 tdp
    rw [scanLoop]
    split_ifs with hg
    case neg =>
      constructor
      · simp
      · intro e he
        simp at he
    obtain ⟨hsome, hnone⟩ := @scanIter_tdp cfg db M tt1 tdp
    cases hit : scanIter cfg db M tt1 tdp with
    | mk o rest =>
      obtain ⟨c, td'⟩ := rest
      cases o with
      | none =>
        have htd : td' = tdp := by
          have := hnone (by rw [hit])
          rw [hit] at this
          exact this
        rw [htd]
        exact ih c tdp
      | some ev =>
        obtain ⟨hev1, hev2⟩ := hsome ev (by rw [hit])
        rw [hit] at hev2
        dsimp only at hev2
        subst hev2
        obtain ⟨ihc, ihh⟩ := ih c ev.ttd
        constructor
        · rw [List.chain'_cons']
          exact ⟨fun b hb => ihh b hb, ihc⟩
        · intro e he
          rw [List.head?_cons, Option.some.injEq] at he
          subst he
          exact hev1

/-- With the sign conventions of the configuration, one iteration emits
only well-ordered events, records the emitted end as the new
`ttd_previous`, and keeps `ttd_previous ≤ cursor`. -/
theorem scanIter_facts {cfg : ScanCfg} {db : StationDB} {M tt1 tdp : ℚ}
    (htw : 0 ≤ cfg.twlex) (hsp : 0 ≤ cfg.spttdf_ssmax) (hdt : 0 ≤ cfg.dt)
    (hsm : 0 ≤ cfg.sttd_max) (htdp : tdp ≤ tt1) (htM : tt1 ≤ M) :
    (∀ ev, (scanIter cfg db M tt1 tdp).1 = some ev → ev.tts ≤ ev.ttd) ∧
    (scanIter cfg db M tt1 tdp).2.2 ≤ (scanIter cfg db M tt1 tdp).2.1 := by
  obtain ⟨h1, h2, h3, h4, h5, h6, h7⟩ := @refinePass_invP cfg tdp M tt1
    (min (tt1 + (cfg.sttd_max + cfg.twlex)) M) htw hsp hdt hsm
    htdp htM (le_min (by linarith) htM) (min_le_right _ _) db
  obtain ⟨hsome, hnone⟩ := @scanIter_tdp cfg db M tt1 tdp
  have hcur : (scanIter cfg db M tt1 tdp).2.2 ≤
      (scanIter cfg db M tt1 tdp).2.1 := by
    unfold scanIter at hsome hnone ⊢
    dsimp only at hsome hnone ⊢
    split_ifs at hsome hnone ⊢ with hg
    · cases htts : (refinePass cfg tdp M tt1
          (min (tt1 + (cfg.sttd_max + cfg.twlex)) M) db).tts with
      | none =>
        cases httd : (refinePass cfg tdp M tt1
            (min (tt1 + (cfg.sttd_max + cfg.twlex)) M) db).ttd with
        | none =>
          dsimp only
          linarith
        | some b =>
          obtain ⟨hb1, hb2, hb3⟩ := h7 b httd
          dsimp only
          linarith
      | some a =>
        cases httd : (refinePass cfg tdp M tt1
            (min (tt1 + (cfg.sttd_max + cfg.twlex)) M) db).ttd with
        | none =>
          dsimp only
          linarith
        | some b =>
          dsimp only
          linarith
    · cases httd : (refinePass cfg tdp M tt1
          (min (tt1 + (cfg.sttd_max + cfg.twlex)) M) db).ttd with
      | none =>
        dsimp only
        linarith
      | some b =>
        obtain ⟨hb1, hb2, hb3⟩ := h7 b httd
        dsimp only
        linarith
  refine ⟨?_, hcur⟩
  intro ev hev
  revert hev
  unfold scanIter
  dsimp only
  split_ifs with hg
  · cases htts : (refinePass cfg tdp M tt1
        (min (tt1 + (cfg.sttd_max + cfg.twlex)) M) db).tts with
    | none =>
      cases httd : (refinePass cfg tdp M tt1
          (min (tt1 + (cfg.sttd_max + cfg.twlex)) M) db).ttd with
      | none => exact fun h => (nomatch h)
      | some b => exact fun h => (nomatch h)
    | some a =>
      cases httd : (refinePass cfg tdp M tt1
          (min (tt1 + (cfg.sttd_max + cfg.twlex)) M) db).ttd with
      | none => exact fun h => (nomatch h)
      | some b =>
        intro hev
        rw [Option.some.injEq] at hev
        subst hev
        exact (h6 a htts).2 b httd
  · exact fun h => (nomatch h)

/-- The scan cursor of one iteration: `ttd + dt` whenever `ttd` was set
(whether or not an event was finalized), else the final window end plus
`dt`. -/
theorem scanIter_cursor {cfg : ScanCfg} {db : StationDB} {M tt1 tdp : ℚ} :
    (scanIter cfg db M tt1 tdp).2.1 =
      (match (refinePass cfg tdp M tt1
          (min (tt1 + (cfg.sttd_max + cfg.twlex)) M) db).ttd with
       | some b => b + cfg.dt
       | none => (refinePass cfg tdp M tt1
          (min (tt1 + (cfg.sttd_max + cfg.twlex)) M) db).tt2 + cfg.dt) := by
  unfold scanIter
  dsimp only
  split_ifs with hg
  · cases htts : (refinePass cfg tdp M tt1
        (min (tt1 + (cfg.sttd_max + cfg.twlex)) M) db).tts with
    | none =>
      cases httd : (refinePass cfg tdp M tt1
          (min (tt1 + (cfg.sttd_max + cfg.twlex)) M) db).ttd with
      | none => rfl
      | some b => rfl
    | some a =>
      cases httd : (refinePass cfg tdp M tt1
          (min (tt1 + (cfg.sttd_max + cfg.twlex)) M) db).ttd with
      | none => rfl
      | some b => rfl
  · cases httd : (refinePass cfg tdp M tt1
        (min (tt1 + (cfg.sttd_max + cfg.twlex)) M) db).ttd with
    | none => rfl
    | some b => rfl

/-- A segment whose refinement returns a value always marks the station
triggered. -/
theorem segStep_trig_of_some {cfg : ScanCfg} {tdp M tt1 : ℚ} {sta : String}
    {st : RefState} {trig : Bool} {pmax : ℚ} {seg : Segment}
    {r : ℚ × ℚ × ℚ} (hres : refineSeg cfg seg tt1 st.tt2 = some r) :
    (segStep cfg tdp M tt1 sta (st, trig, pmax) seg).2.1 = true := by
  obtain ⟨a, b, dmax⟩ := r
  cases hget1 : dictGet sta
      (if pmax < dmax then dictSet sta a st.ttsSta else st.ttsSta) with
  | none => rw [segStep_crash1_eq hres hget1]
  | some v0 =>
    cases hget2 : dictGet sta
        (if pmax < dmax then dictSet sta b st.ttdSta else st.ttdSta) with
    | none => rw [segStep_crash2_eq hres hget1 hget2]
    | some w0 => rw [segStep_full_eq hres hget1 hget2]

/-! ### The claims -/

/-- C1: for every run of the scan and every pair of consecutively finalized
Events `E_i, E_{i+1}`, the `event_start` (`tts`) of `E_{i+1}` is not earlier
than the `event_end` (`ttd`) of `E_i`; the scan enforces this by clamping
each refined start to the previously finalized event's end
(`ttd_previous`). -/
theorem C1_consecutive_events_monotonic (cfg : ScanCfg) (db : StationDB)
    (M : ℚ) (fuel : ℕ) (tt1 tdp : ℚ) :
    List.Chain' (fun e e' : EventR => e.ttd ≤ e'.tts)
      (scanLoop cfg db M fuel tt1 tdp) :=
  (scanLoop_chain cfg db M fuel tt1 tdp).1

/-- C9: every finalized Event satisfies `event_start ≤ event_end`
(`tts ≤ ttd`): the combination of clamping the refined start up to the
previous event's end and clamping the refined end down to the global latest
time bound never produces an inverted window for an emitted Event, under
the sign conventions of the configuration and a scan started with
`ttd_previous ≤ cursor`. -/
theorem C9_no_inverted_window (cfg : ScanCfg) (db : StationDB) (M : ℚ)
    (fuel : ℕ) (tt1 tdp : ℚ)
    (htw : 0 ≤ cfg.twlex) (hsp : 0 ≤ cfg.spttdf_ssmax) (hdt : 0 ≤ cfg.dt)
    (hsm : 0 ≤ cfg.sttd_max) (htdp : tdp ≤ tt1) :
    ∀ ev ∈ scanLoop cfg db M fuel tt1 tdp, ev.tts ≤ ev.ttd := by
  induction fuel generalizing tt1 tdp with
  | zero =>
    intro ev hev
    simp [scanLoop] at hev
  | succ n ih =>
    intro ev hev
    rw [scanLoop] at hev
    by_cases hg : tt1 ≤ M
    case neg =>
      rw [if_neg hg] at hev
      simp at hev
    rw [if_pos hg] at hev
    obtain ⟨hfacts, hcur⟩ := @scanIter_facts cfg db M tt1 tdp htw hsp hdt hsm htdp hg
    obtain ⟨hsome, hnone⟩ := @scanIter_tdp cfg db M tt1 tdp
    cases hit : scanIter cfg db M tt1 tdp with
    | mk o rest =>
      obtain ⟨c, td'⟩ := rest
      have hcur' : td' ≤ c := by
        have := hcur
        rw [hit] at this
        exact this
      cases o with
      | none =>
        rw [hit] at hev
        exact ih c td' hcur' ev hev
      | some ev0 =>
        rw [hit] at hev
        rcases List.mem_cons.mp hev with heq | hmem
        · subst heq
          exact hfacts ev (by rw [hit])
        · exact ih c td' hcur' ev hmem

/-- C3 (amended): after an iteration that finalized an Event the cursor
advances to `event_end + dt`; in an iteration with no finalized Event the
cursor advances to `ttd + dt` whenever any station triggered (`ttd` set) and
only when no station triggered at all does it advance to `t2 + dt` — for
`0 < d_thrd`, `ttd` is set exactly when the trigger count is nonzero. -/
theorem C3_amended_cursor (cfg : ScanCfg) (db : StationDB) (M tt1 tdp : ℚ)
    (hthr : 0 < cfg.d_thrd) :
    ((scanIter cfg db M tt1 tdp).2.1 =
      (match (refinePass cfg tdp M tt1
          (min (tt1 + (cfg.sttd_max + cfg.twlex)) M) db).ttd with
       | some b => b + cfg.dt
       | none => (refinePass cfg tdp M tt1
          (min (tt1 + (cfg.sttd_max + cfg.twlex)) M) db).tt2 + cfg.dt)) ∧
    ((refinePass cfg tdp M tt1
        (min (tt1 + (cfg.sttd_max + cfg.twlex)) M) db).ttd.isSome = true ↔
      1 ≤ (refinePass cfg tdp M tt1
        (min (tt1 + (cfg.sttd_max + cfg.twlex)) M) db).nstaTrig) :=
  ⟨scanIter_cursor,
   ⟨refinePass_ttd_nsta, fun h => (refinePass_nsta_some hthr h).2⟩⟩

/-- C4 (amended): within a single refine pass `t2` is not monotonically
non-decreasing (a later triggering segment reassigns it from the updated
refined start and may shrink it); what the pass does maintain is that `t2`
never falls below the running event end `ttd` and never exceeds the global
latest time bound. -/
theorem C4_amended_window_bound (cfg : ScanCfg) (db : StationDB)
    (M tt1 tdp : ℚ)
    (htw : 0 ≤ cfg.twlex) (hsp : 0 ≤ cfg.spttdf_ssmax) (hdt : 0 ≤ cfg.dt)
    (hsm : 0 ≤ cfg.sttd_max) (htdp : tdp ≤ tt1) (htM : tt1 ≤ M) :
    (refinePass cfg tdp M tt1
      (min (tt1 + (cfg.sttd_max + cfg.twlex)) M) db).tt2 ≤ M ∧
    (∀ b, (refinePass cfg tdp M tt1
        (min (tt1 + (cfg.sttd_max + cfg.twlex)) M) db).ttd = some b →
      b ≤ (refinePass cfg tdp M tt1
        (min (tt1 + (cfg.sttd_max + cfg.twlex)) M) db).tt2) := by
  obtain ⟨h1, h2, h3, h4, h5, h6, h7⟩ := @refinePass_invP cfg tdp M tt1
    (min (tt1 + (cfg.sttd_max + cfg.twlex)) M) htw hsp hdt hsm
    htdp htM (le_min (by linarith) htM) (min_le_right _ _) db
  exact ⟨h2, fun b hb => (h7 b hb).2.2⟩

/-- C2: in every outer scan iteration an Event is finalized (and its data
emitted) if and only if the number of distinct triggered stations is at
least `nsta_thrd`; each station is counted at most once per iteration
regardless of how many of its segments trigger (the count equals the length
of the duplicate-free triggered-station list), and fewer than `nsta_thrd`
triggered stations never produce an Event. -/
theorem C2_coincidence_threshold (cfg : ScanCfg) (db : StationDB)
    (M tt1 tdp : ℚ) (hthr : 0 < cfg.d_thrd) (hns : 1 ≤ cfg.nsta_thrd)
    (hnd : (db.map Prod.fst).Nodup) :
    (triggeredStations cfg tdp M tt1
      (min (tt1 + (cfg.sttd_max + cfg.twlex)) M) db).Nodup ∧
    (refinePass cfg tdp M tt1
      (min (tt1 + (cfg.sttd_max + cfg.twlex)) M) db).nstaTrig =
      (triggeredStations cfg tdp M tt1
        (min (tt1 + (cfg.sttd_max + cfg.twlex)) M) db).length ∧
    ((scanIter cfg db M tt1 tdp).1.isSome = true ↔
      cfg.nsta_thrd ≤ (triggeredStations cfg tdp M tt1
        (min (tt1 + (cfg.sttd_max + cfg.twlex)) M) db).length) := by
  have hcount := refinePass_count cfg tdp M tt1
    (min (tt1 + (cfg.sttd_max + cfg.twlex)) M) db
  refine ⟨(triggeredStations_sublist cfg tdp M tt1 _ db).nodup hnd,
    hcount, ?_, ?_⟩
  · intro hsome
    rw [← hcount]
    revert hsome
    unfold scanIter
    dsimp only
    split_ifs with hg
    · exact fun _ => hg
    · intro h
      simp at h
  · intro hlen
    rw [← hcount] at hlen
    obtain ⟨ha', hb'⟩ := refinePass_nsta_some hthr (le_trans hns hlen)
    obtain ⟨a, ha⟩ := Option.isSome_iff_exists.mp ha'
    obtain ⟨b, hb⟩ := Option.isSome_iff_exists.mp hb'
    unfold scanIter
    dsimp only
    rw [if_pos hlen, ha, hb]
    rfl

/-- C8: a sample whose probability is exactly `d_thrd` counts as above
threshold (the comparison is `≥`, not `>`): a segment with an in-window
sample equal to `d_thrd` produces a refinement, marks its station
triggered, and increments the trigger count. -/
theorem C8_threshold_boundary (cfg : ScanCfg) (tdp M tt1 : ℚ)
    (sta : String) (st : RefState) (pm : ℚ) (seg : Segment) (i : ℕ)
    (hi : i < cfg.dataSize) (hw1 : tt1 ≤ segTime cfg seg i)
    (hw2 : segTime cfg seg i ≤ st.tt2)
    (he : probD seg i = cfg.d_thrd) :
    (refineSeg cfg seg tt1 st.tt2).isSome = true ∧
    (segStep cfg tdp M tt1 sta (st, false, pm) seg).2.1 = true ∧
    (segStep cfg tdp M tt1 sta (st, false, pm) seg).1.nstaTrig =
      st.nstaTrig + 1 := by
  have hany : (detecOf cfg seg tt1 st.tt2).any id = true :=
    detec_any_iff.mpr ⟨i, mem_pdIdxOf.mpr ⟨hi, hw1, hw2⟩, le_of_eq he.symm⟩
  have hres := @refineSeg_eq_some cfg seg tt1 st.tt2 hany
  have htrig := @segStep_trig_of_some cfg tdp M tt1 sta st false pm seg _ hres
  refine ⟨by rw [hres]; rfl, htrig, ?_⟩
  rcases segStep_cases cfg tdp M tt1 sta (st, false, pm) seg with heq | ⟨-, hn⟩
  · rw [heq] at htrig
    exact absurd htrig (by simp)
  · rw [hn]
    simp

/-- C7: for a station segment whose above-threshold run begins at sample
index 0 (the search window starting at or before the segment start, so the
first in-window sample is sample 0), the refined start equals
`segment_start_time - spttdf_ssmax`. -/
theorem C7_edge_saturation (cfg : ScanCfg) (seg : Segment) (tt1 tt2 : ℚ)
    (i1 : ℕ) (hthr0 : cfg.d_thrd ≤ probD seg 0)
    (hwin : ∀ i < cfg.dataSize,
      ((tt1 ≤ segTime cfg seg i ∧ segTime cfg seg i ≤ tt2) ↔ i ≤ i1))
    (hi1N : i1 < cfg.dataSize) :
    ∃ r, refineSeg cfg seg tt1 tt2 = some r ∧
      r.1 = seg.starttime - cfg.spttdf_ssmax := by
  have hpd : pdIdxOf cfg seg tt1 tt2 = List.range' 0 (i1 + 1) := by
    unfold pdIdxOf
    have hc : ∀ x ∈ List.range cfg.dataSize,
        (decide (tt1 ≤ segTime cfg seg x ∧ segTime cfg seg x ≤ tt2) : Bool) =
        decide (0 ≤ x ∧ x ≤ i1) := by
      intro x hx
      rw [List.mem_range] at hx
      rw [decide_eq_decide, hwin x hx]
      omega
    rw [List.filter_congr hc, filter_range_interval 0 i1 cfg.dataSize hi1N]
    norm_num
  have hmem0 : 0 ∈ pdIdxOf cfg seg tt1 tt2 := by
    rw [hpd, List.mem_range'_1]
    omega
  have hany : (detecOf cfg seg tt1 tt2).any id = true :=
    detec_any_iff.mpr ⟨0, hmem0, hthr0⟩
  refine ⟨_, refineSeg_eq_some hany, ?_⟩
  show ttsTempOf cfg seg tt1 tt2 = seg.starttime - cfg.spttdf_ssmax
  unfold ttsTempOf
  rw [hpd, headD_range' 0 (i1 + 1) 0 (by omega)]
  dsimp only
  rw [if_neg (by intro h; exact absurd h.2.1 (by omega)),
    if_pos ⟨hthr0, rfl⟩]
  unfold segTime
  push_cast
  ring

/-- C5: for a station segment whose single contiguous above-threshold run
`[a, b]` lies strictly inside the segment (not touching the first or last
sample) and strictly inside the in-window sample range `[i0, i1]` (so the
samples at `t1` and `t2` are below threshold, and no clamping applies at
this stage), the refined start is exactly `run_start_time - twlex` and the
refined end exactly `run_end_time + twlex`. -/
theorem C5_extension_exact (cfg : ScanCfg) (seg : Segment) (tt1 tt2 : ℚ)
    (a b i0 i1 : ℕ)
    (hrun : ∀ i < cfg.dataSize, (cfg.d_thrd ≤ probD seg i ↔ (a ≤ i ∧ i ≤ b)))
    (hab : a ≤ b) (ha0 : 0 < a) (hbN : b + 1 < cfg.dataSize)
    (hwin : ∀ i < cfg.dataSize,
      ((tt1 ≤ segTime cfg seg i ∧ segTime cfg seg i ≤ tt2) ↔
        (i0 ≤ i ∧ i ≤ i1)))
    (hi0a : i0 < a) (hbi1 : b < i1) (hi1N : i1 < cfg.dataSize) :
    refineSeg cfg seg tt1 tt2 =
      some (segTime cfg seg a - cfg.twlex, segTime cfg seg b + cfg.twlex,
            dmaxOf cfg seg tt1 tt2) := by
  have hpd : pdIdxOf cfg seg tt1 tt2 = List.range' i0 (i1 + 1 - i0) := by
    unfold pdIdxOf
    have hc : ∀ x ∈ List.range cfg.dataSize,
        (decide (tt1 ≤ segTime cfg seg x ∧ segTime cfg seg x ≤ tt2) : Bool) =
        decide (i0 ≤ x ∧ x ≤ i1) := by
      intro x hx
      rw [List.mem_range] at hx
      rw [decide_eq_decide, hwin x hx]
    rw [List.filter_congr hc, filter_range_interval i0 i1 cfg.dataSize hi1N]
  have hLpos : 0 < i1 + 1 - i0 := by omega
  have hmema : a ∈ pdIdxOf cfg seg tt1 tt2 := by
    rw [hpd, List.mem_range'_1]
    omega
  have hthra : cfg.d_thrd ≤ probD seg a :=
    (hrun a (by omega)).mpr ⟨le_refl a, hab⟩
  have hany : (detecOf cfg seg tt1 tt2).any id = true :=
    detec_any_iff.mpr ⟨a, hmema, hthra⟩
  -- the boolean detection list over the window
  have hdc : detecOf cfg seg tt1 tt2 =
      (List.range' i0 (i1 + 1 - i0)).map
        (fun i => decide (cfg.d_thrd ≤ probD seg i)) := by
    unfold detecOf
    rw [hpd]
  have htp : truePositions (detecOf cfg seg tt1 tt2) =
      List.range' (a - i0) (b - i0 + 1 - (a - i0)) := by
    unfold truePositions
    have hlen : (detecOf cfg seg tt1 tt2).length = i1 + 1 - i0 := by
      rw [hdc, List.length_map, List.length_range']
    rw [hlen]
    have hc : ∀ k ∈ List.range (i1 + 1 - i0),
        ((detecOf cfg seg tt1 tt2).getD k false : Bool) =
        decide (a - i0 ≤ k ∧ k ≤ b - i0) := by
      intro k hk
      rw [List.mem_range] at hk
      rw [hdc, getD_map_range' _ i0 (i1 + 1 - i0) k false hk]
      rw [decide_eq_decide, hrun (i0 + k) (by omega)]
      omega
    rw [List.filter_congr hc,
      filter_range_interval (a - i0) (b - i0) (i1 + 1 - i0) (by omega)]
  have hfirst : (pdIdxOf cfg seg tt1 tt2).headD 0 = i0 := by
    rw [hpd]
    exact headD_range' i0 (i1 + 1 - i0) 0 hLpos
  have hlast : (pdIdxOf cfg seg tt1 tt2).getLastD 0 = i1 := by
    rw [hpd, getLastD_range' i0 (i1 + 1 - i0) 0 hLpos]
    omega
  have hpi0 : ¬ cfg.d_thrd ≤ probD seg i0 := by
    rw [hrun i0 (by omega)]
    omega
  have hpi1 : ¬ cfg.d_thrd ≤ probD seg i1 := by
    rw [hrun i1 hi1N]
    omega
  rw [refineSeg_eq_some hany]
  have hts : ttsTempOf cfg seg tt1 tt2 = segTime cfg seg a - cfg.twlex := by
    unfold ttsTempOf
    rw [hfirst]
    dsimp only
    rw [if_neg (fun h => hpi0 h.1), if_neg (fun h => hpi0 h.1)]
    unfold npArgmaxB
    rw [htp, headD_range' (a - i0) (b - i0 + 1 - (a - i0)) 0 (by omega)]
    congr 2
    omega
  have htd : ttdTempOf cfg seg tt1 tt2 = segTime cfg seg b + cfg.twlex := by
    unfold ttdTempOf
    rw [hfirst, hlast]
    dsimp only
    rw [if_neg (fun h => hpi1 h.1), if_neg (fun h => hpi1 h.1)]
    rw [htp, getLastD_range' (a - i0) (b - i0 + 1 - (a - i0)) 0 (by omega)]
    congr 2
    omega
  rw [hts, htd]

/-- C10 (amended): for a station that has a segment covering the finalized
window `[tts, ttd]` AND whose chosen segment has at least one sample time
inside the window, exactly three channel series are emitted — detection
(`PBD`), P-phase (`PBP`) and S-phase (`PBS`) — all extracted from the same
chosen segment with the same sample mask, so the three share one start time
and one length.  When the mask is empty the program instead raises
`IndexError` at `odata_time[0]` (line 333) and emits nothing. -/
theorem C10_three_channels (cfg : ScanCfg) (tts ttd : ℚ)
    (ttsSta ttdSta : List (String × ℚ)) (stn : String × List Segment)
    (hcov : covOf cfg tts ttd stn.2 ≠ [])
    (hmask : pdIdxOf cfg (chosenOf cfg tts ttd ttsSta ttdSta stn) tts ttd ≠
      []) :
    ∃ s0 n out, emitStation cfg tts ttd ttsSta ttdSta stn = some out ∧
      out.map (fun tr => (tr.station, tr.starttime, tr.dat.length)) =
        [(stn.1, s0, n), (stn.1, s0, n), (stn.1, s0, n)] ∧
      out.map (fun tr => tr.channel) = ["PBD", "PBP", "PBS"] := by
  unfold emitStation
  rw [if_neg hcov]
  dsimp only
  cases hpd : pdIdxOf cfg (chosenOf cfg tts ttd ttsSta ttdSta stn) tts ttd with
  | nil => exact absurd hpd hmask
  | cons i0 rest =>
    refine ⟨segTime cfg (chosenOf cfg tts ttd ttsSta ttdSta stn) i0,
      (i0 :: rest).length, _, rfl, ?_, ?_⟩
    · simp only [List.map_cons, List.map_nil, List.length_cons,
        List.length_map]
    · simp only [List.map_cons, List.map_nil]

/-- C6 (amended): a missing or malformed probability source file for any
station aborts the whole load — the exception propagates, no partial store
is built and no scan runs over the remaining stations. -/
theorem C6_amended_load_aborts
    (inputs : List (String × Option (List Segment))) (nm : String)
    (h : (nm, (none : Option (List Segment))) ∈ inputs) :
    ∃ e, loadStations inputs = Except.error e := by
  induction inputs with
  | nil => simp at h
  | cons hd tl ih =>
    obtain ⟨nm', o⟩ := hd
    cases o with
    | none => exact ⟨nm', rfl⟩
    | some segs =>
      rcases List.mem_cons.mp h with heq | hmem
      · simp at heq
      · obtain ⟨e, he⟩ := ih hmem
        refine ⟨e, ?_⟩
        unfold loadStations
        rw [he]
        rfl

/-- C6 counterexample: with station `AAA` loadable and station `BBB`'s
probability file missing, the whole load raises (`Except.error`), rather
than dropping `BBB` and building the store `[("AAA", …)]` from the
remaining stations as the claim states. -/
theorem C6_counterexample :
    loadStations [("AAA", some [⟨0, [(1, 0, 0)]⟩]), ("BBB", none)] =
      Except.error "BBB" ∧
    loadStations [("AAA", some [⟨0, [(1, 0, 0)]⟩]), ("BBB", none)] ≠
      Except.ok [("AAA", [⟨0, [(1, 0, 0)]⟩])] := by
  constructor
  · rfl
  · intro h
    cases h

end Malmi

namespace Malmi

section
set_option maxRecDepth 100000
attribute [local semireducible] Rat.add Rat.mul Rat.sub Rat.inv

/-- A concrete run where no event is emitted (station count below threshold) yet the new cursor differs from old t2 plus dt, refuting the claimed unconditional cursor formula. -/
theorem C3_counterexample :
    (scanIter ⟨3, 1, 1/2, 3, 2, 5, 1⟩
      [("A", [⟨0, [(0,0,0), (1,0,0), (0,0,0), (0,0,0), (0,0,0)]⟩])] 4 0 0).1 = none ∧
    (refinePass ⟨3, 1, 1/2, 3, 2, 5, 1⟩ 0 4 0
      (min (0 + ((3:ℚ) + 1)) 4)
      [("A", [⟨0, [(0,0,0), (1,0,0), (0,0,0), (0,0,0), (0,0,0)]⟩])]).nstaTrig <
      (⟨3, 1, 1/2, 3, 2, 5, 1⟩ : ScanCfg).nsta_thrd ∧
    (scanIter ⟨3, 1, 1/2, 3, 2, 5, 1⟩
      [("A", [⟨0, [(0,0,0), (1,0,0), (0,0,0), (0,0,0), (0,0,0)]⟩])] 4 0 0).2.1 ≠
    (refinePass ⟨3, 1, 1/2, 3, 2, 5, 1⟩ 0 4 0
      (min (0 + ((3:ℚ) + 1)) 4)
      [("A", [⟨0, [(0,0,0), (1,0,0), (0,0,0), (0,0,0), (0,0,0)]⟩])]).tt2 +
      (⟨3, 1, 1/2, 3, 2, 5, 1⟩ : ScanCfg).dt := by
  refine ⟨by decide, by decide, by decide⟩

/-- A concrete two-station refine pass in which the second station triggers and strictly shrinks t2, refuting monotonic non-decrease of t2. -/
theorem C4_counterexample :
    (refinePass ⟨8, 2, 1/2, 3, 4, 16, 1⟩ 0 15 0 (min (0 + ((8:ℚ) + 2)) 15)
        [("A", [⟨0, (List.range 16).map
            (fun i => (if i = 7 then (1:ℚ) else 0, (0:ℚ), (0:ℚ)))⟩]),
         ("B", [⟨0, (List.range 16).map
            (fun i => (if i = 4 then (3/4:ℚ) else 0, (0:ℚ), (0:ℚ)))⟩])] =
      (stationPass ⟨8, 2, 1/2, 3, 4, 16, 1⟩ 0 15 0
        (stationPass ⟨8, 2, 1/2, 3, 4, 16, 1⟩ 0 15 0
          (initState (min (0 + ((8:ℚ) + 2)) 15))
          ("A", [⟨0, (List.range 16).map
            (fun i => (if i = 7 then (1:ℚ) else 0, (0:ℚ), (0:ℚ)))⟩])).1
        ("B", [⟨0, (List.range 16).map
            (fun i => (if i = 4 then (3/4:ℚ) else 0, (0:ℚ), (0:ℚ)))⟩])).1) ∧
    (stationPass ⟨8, 2, 1/2, 3, 4, 16, 1⟩ 0 15 0
        (stationPass ⟨8, 2, 1/2, 3, 4, 16, 1⟩ 0 15 0
          (initState (min (0 + ((8:ℚ) + 2)) 15))
          ("A", [⟨0, (List.range 16).map
            (fun i => (if i = 7 then (1:ℚ) else 0, (0:ℚ), (0:ℚ)))⟩])).1
        ("B", [⟨0, (List.range 16).map
            (fun i => (if i = 4 then (3/4:ℚ) else 0, (0:ℚ), (0:ℚ)))⟩])).1.tt2 <
      (stationPass ⟨8, 2, 1/2, 3, 4, 16, 1⟩ 0 15 0
        (initState (min (0 + ((8:ℚ) + 2)) 15))
        ("A", [⟨0, (List.range 16).map
          (fun i => (if i = 7 then (1:ℚ) else 0, (0:ℚ), (0:ℚ)))⟩])).1.tt2 :=
  ⟨rfl, by decide⟩

/-- Witness instantiating the C9 theorem on a concrete one-station run that emits one event. -/
theorem C9_no_inverted_window_witness :
    (0:ℚ) ≤ 1 ∧ (0:ℚ) ≤ 2 ∧ (0:ℚ) ≤ 1 ∧ (0:ℚ) ≤ 3 ∧ (0:ℚ) ≤ 0 ∧
    (⟨0, 2, [("A", 0)], [("A", 2)], 1⟩ : EventR) ∈
      scanLoop ⟨3, 1, 1/2, 1, 2, 5, 1⟩
        [("A", [⟨0, [(0,0,0), (1,0,0), (0,0,0), (0,0,0), (0,0,0)]⟩])] 4 5 0 0 ∧
    (⟨0, 2, [("A", 0)], [("A", 2)], 1⟩ : EventR).tts ≤
      (⟨0, 2, [("A", 0)], [("A", 2)], 1⟩ : EventR).ttd :=
  ⟨by decide, by decide, by decide, by decide, by decide, by decide,
   C9_no_inverted_window ⟨3, 1, 1/2, 1, 2, 5, 1⟩
     [("A", [⟨0, [(0,0,0), (1,0,0), (0,0,0), (0,0,0), (0,0,0)]⟩])] 4 5 0 0
     (by decide) (by decide) (by decide) (by decide) (by decide)
     ⟨0, 2, [("A", 0)], [("A", 2)], 1⟩ (by decide)⟩

/-- Witness instantiating the C2 theorem on a concrete two-station database. -/
theorem C2_coincidence_threshold_witness :
    0 < (⟨3, 1, 1/2, 2, 2, 5, 1⟩ : ScanCfg).d_thrd ∧
    1 ≤ (⟨3, 1, 1/2, 2, 2, 5, 1⟩ : ScanCfg).nsta_thrd ∧
    (([("A", [⟨0, [(0,0,0), (1,0,0), (0,0,0), (0,0,0), (0,0,0)]⟩]),
       ("B", [⟨0, [(0,0,0), (1,0,0), (0,0,0), (0,0,0), (0,0,0)]⟩])] :
        StationDB).map Prod.fst).Nodup ∧
    ((triggeredStations ⟨3, 1, 1/2, 2, 2, 5, 1⟩ 0 4 0
        (min (0 + ((3:ℚ) + 1)) 4)
        [("A", [⟨0, [(0,0,0), (1,0,0), (0,0,0), (0,0,0), (0,0,0)]⟩]),
         ("B", [⟨0, [(0,0,0), (1,0,0), (0,0,0), (0,0,0), (0,0,0)]⟩])]).Nodup ∧
     (refinePass ⟨3, 1, 1/2, 2, 2, 5, 1⟩ 0 4 0 (min (0 + ((3:ℚ) + 1)) 4)
        [("A", [⟨0, [(0,0,0), (1,0,0), (0,0,0), (0,0,0), (0,0,0)]⟩]),
         ("B", [⟨0, [(0,0,0), (1,0,0), (0,0,0), (0,0,0), (0,0,0)]⟩])]).nstaTrig =
       (triggeredStations ⟨3, 1, 1/2, 2, 2, 5, 1⟩ 0 4 0
        (min (0 + ((3:ℚ) + 1)) 4)
        [("A", [⟨0, [(0,0,0), (1,0,0), (0,0,0), (0,0,0), (0,0,0)]⟩]),
         ("B", [⟨0, [(0,0,0), (1,0,0), (0,0,0), (0,0,0), (0,0,0)]⟩])]).length ∧
     ((scanIter ⟨3, 1, 1/2, 2, 2, 5, 1⟩
        [("A", [⟨0, [(0,0,0), (1,0,0), (0,0,0), (0,0,0), (0,0,0)]⟩]),
         ("B", [⟨0, [(0,0,0), (1,0,0), (0,0,0), (0,0,0), (0,0,0)]⟩])] 4 0 0).1.isSome =
        true ↔
      (⟨3, 1, 1/2, 2, 2, 5, 1⟩ : ScanCfg).nsta_thrd ≤
        (triggeredStations ⟨3, 1, 1/2, 2, 2, 5, 1⟩ 0 4 0
          (min (0 + ((3:ℚ) + 1)) 4)
          [("A", [⟨0, [(0,0,0), (1,0,0), (0,0,0), (0,0,0), (0,0,0)]⟩]),
           ("B", [⟨0, [(0,0,0), (1,0,0), (0,0,0), (0,0,0), (0,0,0)]⟩])]).length)) :=
  ⟨by decide, by decide, by decide,
   C2_coincidence_threshold ⟨3, 1, 1/2, 2, 2, 5, 1⟩
     [("A", [⟨0, [(0,0,0), (1,0,0), (0,0,0), (0,0,0), (0,0,0)]⟩]),
      ("B", [⟨0, [(0,0,0), (1,0,0), (0,0,0), (0,0,0), (0,0,0)]⟩])] 4 0 0
     (by decide) (by decide) (by decide)⟩

/-- Witness instantiating the amended C3 cursor theorem on a concrete one-station run. -/
theorem C3_amended_cursor_witness :
    0 < (⟨3, 1, 1/2, 3, 2, 5, 1⟩ : ScanCfg).d_thrd ∧
    (((scanIter ⟨3, 1, 1/2, 3, 2, 5, 1⟩
        [("A", [⟨0, [(0,0,0), (1,0,0), (0,0,0), (0,0,0), (0,0,0)]⟩])] 4 0 0).2.1 =
      (match (refinePass ⟨3, 1, 1/2, 3, 2, 5, 1⟩ 0 4 0
          (min (0 + ((⟨3, 1, 1/2, 3, 2, 5, 1⟩ : ScanCfg).sttd_max +
            (⟨3, 1, 1/2, 3, 2, 5, 1⟩ : ScanCfg).twlex)) 4)
          [("A", [⟨0, [(0,0,0), (1,0,0), (0,0,0), (0,0,0), (0,0,0)]⟩])]).ttd with
       | some b => b + (⟨3, 1, 1/2, 3, 2, 5, 1⟩ : ScanCfg).dt
       | none => (refinePass ⟨3, 1, 1/2, 3, 2, 5, 1⟩ 0 4 0
          (min (0 + ((⟨3, 1, 1/2, 3, 2, 5, 1⟩ : ScanCfg).sttd_max +
            (⟨3, 1, 1/2, 3, 2, 5, 1⟩ : ScanCfg).twlex)) 4)
          [("A", [⟨0, [(0,0,0), (1,0,0), (0,0,0), (0,0,0), (0,0,0)]⟩])]).tt2 +
          (⟨3, 1, 1/2, 3, 2, 5, 1⟩ : ScanCfg).dt)) ∧
     ((refinePass ⟨3, 1, 1/2, 3, 2, 5, 1⟩ 0 4 0
        (min (0 + ((⟨3, 1, 1/2, 3, 2, 5, 1⟩ : ScanCfg).sttd_max +
          (⟨3, 1, 1/2, 3, 2, 5, 1⟩ : ScanCfg).twlex)) 4)
        [("A", [⟨0, [(0,0,0), (1,0,0), (0,0,0), (0,0,0), (0,0,0)]⟩])]).ttd.isSome =
        true ↔
      1 ≤ (refinePass ⟨3, 1, 1/2, 3, 2, 5, 1⟩ 0 4 0
        (min (0 + ((⟨3, 1, 1/2, 3, 2, 5, 1⟩ : ScanCfg).sttd_max +
          (⟨3, 1, 1/2, 3, 2, 5, 1⟩ : ScanCfg).twlex)) 4)
        [("A", [⟨0, [(0,0,0), (1,0,0), (0,0,0), (0,0,0), (0,0,0)]⟩])]).nstaTrig)) :=
  ⟨by decide,
   C3_amended_cursor ⟨3, 1, 1/2, 3, 2, 5, 1⟩
     [("A", [⟨0, [(0,0,0), (1,0,0), (0,0,0), (0,0,0), (0,0,0)]⟩])] 4 0 0
     (by decide)⟩

/-- Witness instantiating the amended C4 bound theorem on a concrete one-station refine pass. -/
theorem C4_amended_window_bound_witness :
    ((0:ℚ) ≤ 2 ∧ (0:ℚ) ≤ 4 ∧ (0:ℚ) ≤ 1 ∧ (0:ℚ) ≤ 8 ∧ (0:ℚ) ≤ 0 ∧ (0:ℚ) ≤ 15) ∧
    (refinePass ⟨8, 2, 1/2, 3, 4, 16, 1⟩ 0 15 0
        (min (0 + ((⟨8, 2, 1/2, 3, 4, 16, 1⟩ : ScanCfg).sttd_max +
          (⟨8, 2, 1/2, 3, 4, 16, 1⟩ : ScanCfg).twlex)) 15)
        [("A", [⟨0, (List.range 16).map
          (fun i => (if i = 7 then (1:ℚ) else 0, (0:ℚ), (0:ℚ)))⟩])]).tt2 ≤ 15 ∧
    (refinePass ⟨8, 2, 1/2, 3, 4, 16, 1⟩ 0 15 0
        (min (0 + ((⟨8, 2, 1/2, 3, 4, 16, 1⟩ : ScanCfg).sttd_max +
          (⟨8, 2, 1/2, 3, 4, 16, 1⟩ : ScanCfg).twlex)) 15)
        [("A", [⟨0, (List.range 16).map
          (fun i => (if i = 7 then (1:ℚ) else 0, (0:ℚ), (0:ℚ)))⟩])]).ttd = some 9 ∧
    (9:ℚ) ≤ (refinePass ⟨8, 2, 1/2, 3, 4, 16, 1⟩ 0 15 0
        (min (0 + ((⟨8, 2, 1/2, 3, 4, 16, 1⟩ : ScanCfg).sttd_max +
          (⟨8, 2, 1/2, 3, 4, 16, 1⟩ : ScanCfg).twlex)) 15)
        [("A", [⟨0, (List.range 16).map
          (fun i => (if i = 7 then (1:ℚ) else 0, (0:ℚ), (0:ℚ)))⟩])]).tt2 :=
  ⟨⟨by decide, by decide, by decide, by decide, by decide, by decide⟩,
   (C4_amended_window_bound ⟨8, 2, 1/2, 3, 4, 16, 1⟩
     [("A", [⟨0, (List.range 16).map
       (fun i => (if i = 7 then (1:ℚ) else 0, (0:ℚ), (0:ℚ)))⟩])] 15 0 0
     (by decide) (by decide) (by decide) (by decide) (by decide) (by decide)).1,
   by decide,
   (C4_amended_window_bound ⟨8, 2, 1/2, 3, 4, 16, 1⟩
     [("A", [⟨0, (List.range 16).map
       (fun i => (if i = 7 then (1:ℚ) else 0, (0:ℚ), (0:ℚ)))⟩])] 15 0 0
     (by decide) (by decide) (by decide) (by decide) (by decide) (by decide)).2
     9 (by decide)⟩

/-- Witness instantiating the C5 theorem on a segment with an interior above-threshold run at samples 3 and 4. -/
theorem C5_extension_exact_witness :
    refineSeg ⟨5, 1, 1/2, 1, 3, 8, 1⟩
      ⟨0, (List.range 8).map
        (fun i => (if 3 ≤ i ∧ i ≤ 4 then (1:ℚ) else 0, (0:ℚ), (0:ℚ)))⟩ 1 6 =
      some (segTime ⟨5, 1, 1/2, 1, 3, 8, 1⟩
          ⟨0, (List.range 8).map
            (fun i => (if 3 ≤ i ∧ i ≤ 4 then (1:ℚ) else 0, (0:ℚ), (0:ℚ)))⟩ 3 -
          (⟨5, 1, 1/2, 1, 3, 8, 1⟩ : ScanCfg).twlex,
        segTime ⟨5, 1, 1/2, 1, 3, 8, 1⟩
          ⟨0, (List.range 8).map
            (fun i => (if 3 ≤ i ∧ i ≤ 4 then (1:ℚ) else 0, (0:ℚ), (0:ℚ)))⟩ 4 +
          (⟨5, 1, 1/2, 1, 3, 8, 1⟩ : ScanCfg).twlex,
        dmaxOf ⟨5, 1, 1/2, 1, 3, 8, 1⟩
          ⟨0, (List.range 8).map
            (fun i => (if 3 ≤ i ∧ i ≤ 4 then (1:ℚ) else 0, (0:ℚ), (0:ℚ)))⟩ 1 6) :=
  C5_extension_exact ⟨5, 1, 1/2, 1, 3, 8, 1⟩
    ⟨0, (List.range 8).map
      (fun i => (if 3 ≤ i ∧ i ≤ 4 then (1:ℚ) else 0, (0:ℚ), (0:ℚ)))⟩ 1 6
    3 4 1 6 (by decide) (by decide) (by decide) (by decide) (by decide)
    (by decide) (by decide) (by decide)

/-- Witness instantiating the C7 theorem on a segment whose run touches sample 0. -/
theorem C7_edge_saturation_witness :
    (⟨5, 1, 1/2, 1, 2, 5, 1⟩ : ScanCfg).d_thrd ≤
      probD ⟨0, [(1,0,0), (1,0,0), (0,0,0), (0,0,0), (0,0,0)]⟩ 0 ∧
    (∃ r, refineSeg ⟨5, 1, 1/2, 1, 2, 5, 1⟩
        ⟨0, [(1,0,0), (1,0,0), (0,0,0), (0,0,0), (0,0,0)]⟩ 0 3 = some r ∧
      r.1 = (⟨0, [(1,0,0), (1,0,0), (0,0,0), (0,0,0), (0,0,0)]⟩ : Segment).starttime -
        (⟨5, 1, 1/2, 1, 2, 5, 1⟩ : ScanCfg).spttdf_ssmax) :=
  ⟨by decide,
   C7_edge_saturation ⟨5, 1, 1/2, 1, 2, 5, 1⟩
     ⟨0, [(1,0,0), (1,0,0), (0,0,0), (0,0,0), (0,0,0)]⟩ 0 3 3
     (by decide) (by decide) (by decide)⟩

/-- Witness instantiating the C8 theorem on a segment whose peak equals the threshold exactly. -/
theorem C8_threshold_boundary_witness :
    (2 < (⟨3, 1, 1/2, 3, 2, 5, 1⟩ : ScanCfg).dataSize ∧
     (0:ℚ) ≤ segTime ⟨3, 1, 1/2, 3, 2, 5, 1⟩
       ⟨0, [(0,0,0), (0,0,0), (1/2,0,0), (0,0,0), (0,0,0)]⟩ 2 ∧
     segTime ⟨3, 1, 1/2, 3, 2, 5, 1⟩
       ⟨0, [(0,0,0), (0,0,0), (1/2,0,0), (0,0,0), (0,0,0)]⟩ 2 ≤ (initState 4).tt2 ∧
     probD ⟨0, [(0,0,0), (0,0,0), (1/2,0,0), (0,0,0), (0,0,0)]⟩ 2 =
       (⟨3, 1, 1/2, 3, 2, 5, 1⟩ : ScanCfg).d_thrd) ∧
    ((refineSeg ⟨3, 1, 1/2, 3, 2, 5, 1⟩
        ⟨0, [(0,0,0), (0,0,0), (1/2,0,0), (0,0,0), (0,0,0)]⟩ 0 (initState 4).tt2).isSome =
        true ∧
     (segStep ⟨3, 1, 1/2, 3, 2, 5, 1⟩ 0 4 0 "A" (initState 4, false, 0)
        ⟨0, [(0,0,0), (0,0,0), (1/2,0,0), (0,0,0), (0,0,0)]⟩).2.1 = true ∧
     (segStep ⟨3, 1, 1/2, 3, 2, 5, 1⟩ 0 4 0 "A" (initState 4, false, 0)
        ⟨0, [(0,0,0), (0,0,0), (1/2,0,0), (0,0,0), (0,0,0)]⟩).1.nstaTrig =
       (initState 4).nstaTrig + 1) :=
  ⟨⟨by decide, by decide, by decide, by decide⟩,
   C8_threshold_boundary ⟨3, 1, 1/2, 3, 2, 5, 1⟩ 0 4 0 "A" (initState 4) 0
     ⟨0, [(0,0,0), (0,0,0), (1/2,0,0), (0,0,0), (0,0,0)]⟩ 2
     (by decide) (by decide) (by decide) (by decide)⟩

/-- A covered station whose chosen segment has no sample time inside the
finalized window: the window `[1/4, 3/4]` lies between samples 0 and 1 of a
covering segment, so `odata_time[0]` (line 333) raises `IndexError` and no
series at all is emitted, refuting the original unconditional three-series
claim. -/
theorem C10_counterexample :
    covOf ⟨3, 1, 1/2, 3, 2, 3, 1⟩ (1/4) (3/4)
      [⟨0, [(1,2,3), (4,5,6), (7,8,9)]⟩] ≠ [] ∧
    emitStation ⟨3, 1, 1/2, 3, 2, 3, 1⟩ (1/4) (3/4) [] []
      ("A", [⟨0, [(1,2,3), (4,5,6), (7,8,9)]⟩]) = none :=
  ⟨by decide, by decide⟩

/-- Witness instantiating the amended C10 theorem on a concrete covered
station whose sample mask is nonempty. -/
theorem C10_three_channels_witness :
    covOf ⟨3, 1, 1/2, 3, 2, 3, 1⟩ 0 2 [⟨0, [(1,2,3), (4,5,6), (7,8,9)]⟩] ≠ [] ∧
    pdIdxOf ⟨3, 1, 1/2, 3, 2, 3, 1⟩
      (chosenOf ⟨3, 1, 1/2, 3, 2, 3, 1⟩ 0 2 [] []
        ("A", [⟨0, [(1,2,3), (4,5,6), (7,8,9)]⟩])) 0 2 ≠ [] ∧
    (∃ s0 n out, emitStation ⟨3, 1, 1/2, 3, 2, 3, 1⟩ 0 2 [] []
        ("A", [⟨0, [(1,2,3), (4,5,6), (7,8,9)]⟩]) = some out ∧
      out.map (fun tr => (tr.station, tr.starttime, tr.dat.length)) =
        [("A", s0, n), ("A", s0, n), ("A", s0, n)] ∧
      out.map (fun tr => tr.channel) = ["PBD", "PBP", "PBS"]) :=
  ⟨by decide, by decide,
   C10_three_channels ⟨3, 1, 1/2, 3, 2, 3, 1⟩ 0 2 [] []
     ("A", [⟨0, [(1,2,3), (4,5,6), (7,8,9)]⟩]) (by decide) (by decide)⟩

/-- Witness instantiating the amended C6 theorem on a two-entry input whose second source is missing. -/
theorem C6_amended_load_aborts_witness :
    ("B", (none : Option (List Segment))) ∈
      [("A", some [(⟨0, [(1,0,0)]⟩ : Segment)]),
       ("B", (none : Option (List Segment)))] ∧
    (∃ e, loadStations
      [("A", some [(⟨0, [(1,0,0)]⟩ : Segment)]),
       ("B", (none : Option (List Segment)))] =
      Except.error e) :=
  ⟨by decide,
   C6_amended_load_aborts
     [("A", some [(⟨0, [(1,0,0)]⟩ : Segment)]),
      ("B", (none : Option (List Segment)))]
     "B" (by decide)⟩

end

end Malmi
